import Mathlib

/-!
Verification development for the LaTeX reference-extraction tool
(`pandoc_analyzer.py`, `main.py`, `latex_parser.py`).

The Python code is shallowly embedded: Python `str` operations are modelled
over `List Char`, the dynamic JSON values consumed by the analyzer are
modelled by the inductive `PyVal`, and code that can raise a Python
exception returns `Except PyErr`.  External libraries (bibtexparser,
pylatexenc, pathlib resolution, the `\bibitem` regular expression) are
modelled as function parameters that deliver their already-computed
results; everything the repository's own code does to those results is
embedded faithfully.
-/

set_option maxRecDepth 4000

/-! ## Python string primitives (modelled over `List Char`) -/

/-- Python whitespace for `str.strip()` (ASCII part; `str.strip` also strips
a few unicode spaces which never occur in the data handled here). -/
def isPySpace (c : Char) : Bool :=
  c = ' ' || c = '\t' || c = '\n' || c = '\r' || c = '\x0b' || c = '\x0c'

/-- `s.strip()`. -/
def pyStripStr (s : String) : String :=
  String.mk (((s.toList.dropWhile isPySpace).reverse.dropWhile isPySpace).reverse)

/-- `s.strip(chars)`: drop characters of `cs` from both ends. -/
def pyStripChars (s : String) (cs : List Char) : String :=
  String.mk (((s.toList.dropWhile (cs.contains ·)).reverse.dropWhile (cs.contains ·)).reverse)

/-- `s.rstrip(chars)`: drop characters of `cs` from the right end. -/
def pyRstripChars (s : String) (cs : List Char) : String :=
  String.mk ((s.toList.reverse.dropWhile (cs.contains ·)).reverse)

/-- `needle in haystack` on character lists (contiguous subsequence test). -/
def hasSubSeq (s pat : List Char) : Bool :=
  match s with
  | [] => pat.isPrefixOf []
  | _ :: t => pat.isPrefixOf s || hasSubSeq t pat

/-- Python `sub in s` (substring containment). -/
def pyContainsSub (s sub : String) : Bool :=
  hasSubSeq s.toList sub.toList

/-- `s.endswith(suffix)`. -/
def pyEndsWith (s suffix : String) : Bool :=
  suffix.toList.isSuffixOf s.toList

/-- `s.lower()` (ASCII case mapping, as used on citation keys and filenames). -/
def pyLower (s : String) : String :=
  String.mk (s.toList.map Char.toLower)

/-- Worker for `str.split(sep)` with a non-empty separator; the fuel is the
length of the input, consumed one character (at least) per step, so the
`0` fallback is unreachable. -/
def listSplitOnAux (sep : List Char) : Nat → List Char → List Char → List (List Char)
  | _, [], acc => [acc.reverse]
  | 0, s, acc => [acc.reverse ++ s]
  | fuel + 1, c :: rest, acc =>
    if sep ≠ [] ∧ sep.isPrefixOf (c :: rest) then
      acc.reverse :: listSplitOnAux sep fuel ((c :: rest).drop sep.length) []
    else
      listSplitOnAux sep fuel rest (c :: acc)

/-- Python `s.split(sep)` for a non-empty separator `sep`. -/
def pySplit (s sep : String) : List String :=
  (listSplitOnAux sep.toList s.toList.length s.toList []).map String.mk

/-- `'#' * level` for a Python int `level` (empty for non-positive values). -/
def hashRepeat (n : Int) : String :=
  String.mk (List.replicate n.toNat '#')

/-! ## `_normalize_key` (pandoc_analyzer.py, lines 11-26) -/

/-- `_normalize_key`: lowercase the key, then keep only characters matching
`[a-z0-9\-_]` (the `re.sub` deletes everything else). -/
def _normalize_key (key : String) : String :=
  String.mk ((pyLower key).toList.filter fun c =>
    ('a' ≤ c && c ≤ 'z') || ('0' ≤ c && c ≤ '9') || c = '-' || c = '_')

/-! ## Dynamic Python/JSON values and exceptions -/

/-- Python exception kinds raised by the embedded code paths. -/
inductive PyErr where
  | keyError
  | typeError
  | attrError
  | indexError
  | recursionError
deriving DecidableEq

/-- The JSON-shaped dynamic values produced by `json.load` on the Pandoc
document (strings, ints, lists, string-keyed objects, null). -/
inductive PyVal where
  | str (s : String)
  | int (n : Int)
  | list (l : List PyVal)
  | dict (fields : List (String × PyVal))
  | null

/-- Field lookup in an object (Python dict lookup; JSON object keys are
unique, so first match is the value). -/
def pyLookup : List (String × PyVal) → String → Option PyVal
  | [], _ => Option.none
  | (k', v) :: rest, k => if k' = k then some v else pyLookup rest k

/-- `v.get(k)` — `None` default; raises `AttributeError` on non-dicts. -/
def pyDotGet (v : PyVal) (k : String) : Except PyErr (Option PyVal) :=
  match v with
  | .dict fields => .ok (pyLookup fields k)
  | _ => .error .attrError

/-- `v.get(k, d)` with an explicit default. -/
def pyDotGetD (v : PyVal) (k : String) (d : PyVal) : Except PyErr PyVal :=
  match v with
  | .dict fields => .ok ((pyLookup fields k).getD d)
  | _ => .error .attrError

/-- `v[k]` for a string key `k`. -/
def pyGetItemStr (v : PyVal) (k : String) : Except PyErr PyVal :=
  match v with
  | .dict fields =>
    match pyLookup fields k with
    | some x => .ok x
    | Option.none => .error .keyError
  | _ => .error .typeError

/-- `v[i]` for a non-negative int index `i`: list indexing, string indexing
(a one-character string), `KeyError` on string-keyed dicts, `TypeError`
otherwise. -/
def pyGetIndex (v : PyVal) (i : Nat) : Except PyErr PyVal :=
  match v with
  | .list l =>
    match l.get? i with
    | some x => .ok x
    | Option.none => .error .indexError
  | .str s =>
    match s.toList.get? i with
    | some c => .ok (.str (String.mk [c]))
    | Option.none => .error .indexError
  | .dict _ => .error .keyError
  | _ => .error .typeError

/-- `for x in v`: lists iterate elements, strings iterate one-character
strings, dicts iterate their keys; ints and `None` raise `TypeError`. -/
def pyIterate (v : PyVal) : Except PyErr (List PyVal) :=
  match v with
  | .list l => .ok l
  | .str s => .ok (s.toList.map fun c => PyVal.str (String.mk [c]))
  | .dict fields => .ok (fields.map fun kv => PyVal.str kv.1)
  | _ => .error .typeError

/-- `needle in v` for a string `needle`: substring test on strings, element
equality on lists, key membership on dicts, `TypeError` otherwise. -/
def pyContainsStr (v : PyVal) (needle : String) : Except PyErr Bool :=
  match v with
  | .str s => .ok (pyContainsSub s needle)
  | .list l => .ok (l.any fun x => match x with | .str s => s = needle | _ => false)
  | .dict fields => .ok (fields.any fun kv => kv.1 = needle)
  | _ => .error .typeError

/-- The string tag of an optional value, when it is a string (used for
`node.get('t') == 'SomeTag'`: a non-string tag simply compares unequal). -/
def tagOf (o : Option PyVal) : Option String :=
  match o with
  | some (.str s) => some s
  | _ => Option.none

mutual

/-- `repr` of a value, used by `str` on containers (string escaping inside
`repr` is simplified to plain quoting; no analyzed claim depends on it). -/
def pyRepr : PyVal → String
  | .str s => String.mk ('\x27' :: s.toList ++ ['\x27'])
  | .int n => toString n
  | .null => "None"
  | .list l => "[" ++ String.intercalate ", " (pyReprL l) ++ "]"
  | .dict fields =>
    "\x7b" ++ String.intercalate ", " (pyReprD fields) ++ "\x7d"

/-- `repr` of each element of a list. -/
def pyReprL : List PyVal → List String
  | [] => []
  | v :: l => pyRepr v :: pyReprL l

/-- `repr` of each `key: value` pair of an object. -/
def pyReprD : List (String × PyVal) → List String
  | [] => []
  | (k, v) :: l => (pyRepr (.str k) ++ ": " ++ pyRepr v) :: pyReprD l

end

/-- Python `str(v)`. -/
def pyStr : PyVal → String
  | .str s => s
  | v => pyRepr v

/-- `''.join(parts)`: concatenates string parts; a non-string part raises
`TypeError` (Python reports this when joining, after the loop has collected
the parts). -/
def pyJoin : List PyVal → Except PyErr String
  | [] => .ok ""
  | .str s :: rest =>
    match pyJoin rest with
    | .ok r => .ok (s ++ r)
    | .error e => .error e
  | _ :: _ => .error .typeError

mutual

/-- Structural size of a value; used as recursion fuel below. It strictly
exceeds the depth of any chain of nested sub-values, so the fuel of
`_get_plain_text_from_nodes` never runs out. -/
def pySize : PyVal → Nat
  | .str _ => 1
  | .int _ => 1
  | .null => 1
  | .list l => 1 + pySizeL l
  | .dict fields => 1 + pySizeD fields

/-- Size of a list of values. -/
def pySizeL : List PyVal → Nat
  | [] => 1
  | v :: l => 1 + pySize v + pySizeL l

/-- Size of an object's field list. -/
def pySizeD : List (String × PyVal) → Nat
  | [] => 1
  | (_, v) :: l => 1 + pySize v + pySizeD l

end

/-! ## `_get_plain_text_from_nodes` (pandoc_analyzer.py, lines 55-91)

The Python function recurses through values extracted from dictionaries,
so the Lean embedding indexes the recursion by fuel; the public wrapper
supplies fuel larger than the value's structural size, which bounds the
recursion depth, so the `RecursionError` branch is unreachable there
(it mirrors Python's own recursion limit). -/

mutual

/-- Fuel-indexed `_get_plain_text_from_nodes`: a non-list input yields `""`;
a list input collects text parts per node and joins them. -/
def getPTAux : Nat → PyVal → Except PyErr String
  | 0, _ => .error .recursionError
  | fuel + 1, v =>
    match v with
    | .list ns =>
      match textPartsAux fuel ns with
      | .ok parts => pyJoin parts
      | .error e => .error e
    | _ => .ok ""

/-- The `text_parts` accumulated by the loop body, over a node list. -/
def textPartsAux : Nat → List PyVal → Except PyErr (List PyVal)
  | 0, _ => .error .recursionError
  | fuel + 1, nodes =>
    match nodes with
    | [] => .ok []
    | node :: rest =>
      match nodePartsAux fuel node with
      | .error e => .error e
      | .ok ps =>
        match textPartsAux fuel rest with
        | .error e => .error e
        | .ok qs => .ok (ps ++ qs)

/-- The contribution of one node to `text_parts` (the `elif` chain of the
loop body).  For `Cite`/`Quoted`, indexing `node['c']` with `1` on a string
value yields a one-character string, on which the recursive call returns
`""`; those cases are written out directly. -/
def nodePartsAux : Nat → PyVal → Except PyErr (List PyVal)
  | 0, _ => .error .recursionError
  | fuel + 1, node =>
    match node with
    | .dict fields =>
      let t? := tagOf (pyLookup fields "t")
      if t? = some "Str" then
        match pyLookup fields "c" with
        | some c => .ok [c]
        | Option.none => .error .keyError
      else if t? = some "Space" ∨ t? = some "SoftBreak" ∨ t? = some "LineBreak" then
        .ok [.str " "]
      else if t? = some "Cite" then
        match pyLookup fields "c" with
        | Option.none => .error .keyError
        | some c =>
          match pyGetIndex c 1 with
          | .error e => .error e
          | .ok inner =>
            match getPTAux fuel inner with
            | .error e => .error e
            | .ok s => .ok [.str s]
      else if t? = some "Quoted" then
        match pyLookup fields "c" with
        | Option.none => .error .keyError
        | some c =>
          match pyGetIndex c 0 with
          | .error e => .error e
          | .ok q =>
            match pyDotGet q "t" with
            | .error e => .error e
            | .ok qt =>
              let quoteChar : String := if tagOf qt = some "DoubleQuote" then "\"" else "\x27"
              match pyGetIndex c 1 with
              | .error e => .error e
              | .ok inner =>
                match getPTAux fuel inner with
                | .error e => .error e
                | .ok s => .ok [.str (quoteChar ++ s ++ quoteChar)]
      else
        match pyLookup fields "c" with
        | some (.list l) =>
          match getPTAux fuel (.list l) with
          | .error e => .error e
          | .ok s => .ok [.str s]
        | _ => .ok []
    | _ => .ok [.str (pyStr node)]

end

/-- `_get_plain_text_from_nodes` with sufficient fuel. -/
def _get_plain_text_from_nodes (v : PyVal) : Except PyErr String :=
  getPTAux (pySize v + 1) v

/-! ## Citation contexts and reference records -/

/-- The context dictionaries appended to `self.citations`
(pandoc_analyzer.py, lines 138-144).  The Python dict key `section` is a
Lean keyword, so the field is named `sectionTitle`. -/
structure CitationContext where
  key : String
  sectionTitle : String
  citation_sentence : String
  pre_context : String
  post_context : String
deriving DecidableEq

/-- A reference record as produced by `parse_references` (main.py): the four
fields are always present; the `citations` key is absent (`Option.none`)
until `extract_all_data` creates it. -/
structure RefRecord where
  key : String
  inferred_title : String
  inferred_author : String
  content : String
  citations : Option (List CitationContext)
deriving DecidableEq

/-- The `citations` list of a record, empty when the key is absent. -/
def citationsOf (r : RefRecord) : List CitationContext :=
  r.citations.getD []

/-! ## `_analyze_contexts_from_ast` (pandoc_analyzer.py, lines 93-144)

The per-sentence deduplication `for key in set(sentence_keys)` iterates a
Python set, whose order is not specified; the walk is therefore
parameterized by an order function `ord` applied to the collected key list.
`pySetList` below is the canonical valid instance (first-occurrence
deduplication), and claim C4 shows the output does not depend on the
choice among valid instances. -/

/-- Insert a string into a set modelled as a duplicate-free list. -/
def insertSet (l : List String) (x : String) : List String :=
  if x ∈ l then l else l ++ [x]

/-- Default model of `set(keys)` iteration: first-occurrence dedup. -/
def pySetList (ks : List String) : List String :=
  ks.foldl insertSet []

/-- A valid model of Python set iteration: duplicate-free and containing
exactly the elements of the input list. -/
def ValidOrd (ord : List String → List String) : Prop :=
  ∀ ks : List String, (ord ks).Nodup ∧ ∀ k, k ∈ ord ks ↔ k ∈ ks

/-- The sentence-boundary test on one inline node (line 115):
`node.get('t') == 'Str' and any(p in node['c'] for p in '.!?')`. -/
def sentenceEnd (node : PyVal) : Except PyErr Bool :=
  match node with
  | .dict fields =>
    if tagOf (pyLookup fields "t") = some "Str" then
      match pyLookup fields "c" with
      | Option.none => .error .keyError
      | some c =>
        match pyContainsStr c "." with
        | .error e => .error e
        | .ok true => .ok true
        | .ok false =>
          match pyContainsStr c "!" with
          | .error e => .error e
          | .ok true => .ok true
          | .ok false => pyContainsStr c "?"
    else .ok false
  | _ => .error .attrError

/-- The sentence-splitting loop of a `Para` block (lines 110-119):
accumulate nodes, close the sentence after a `Str` node containing
terminal punctuation, and keep a trailing partial sentence. -/
def splitSentsAux : List PyVal → List PyVal → List (List PyVal) →
    Except PyErr (List (List PyVal))
  | [], cur, acc =>
    .ok (match cur with
         | [] => acc
         | _ :: _ => acc ++ [cur])
  | n :: rest, cur, acc =>
    match sentenceEnd n with
    | .error e => .error e
    | .ok true => splitSentsAux rest [] (acc ++ [cur ++ [n]])
    | .ok false => splitSentsAux rest (cur ++ [n]) acc

/-- `_normalize_key(citation['citationId'])` over the citation-descriptor
list of a `Cite` node (lines 127-128); `key.lower()` raises
`AttributeError` on a non-string id. -/
def citationIdList : List PyVal → Except PyErr (List String)
  | [] => .ok []
  | c :: rest =>
    match pyGetItemStr c "citationId" with
    | .error e => .error e
    | .ok v =>
      match v with
      | .str s =>
        match citationIdList rest with
        | .ok ks => .ok (_normalize_key s :: ks)
        | .error e => .error e
      | _ => .error .attrError

/-- Keys contributed by one node of a sentence (lines 124-128). -/
def citeKeysOfNode (node : PyVal) : Except PyErr (List String) :=
  match node with
  | .dict fields =>
    if tagOf (pyLookup fields "t") = some "Cite" then
      match pyLookup fields "c" with
      | Option.none => .error .keyError
      | some c =>
        match pyGetIndex c 0 with
        | .error e => .error e
        | .ok cl =>
          match pyIterate cl with
          | .error e => .error e
          | .ok cits => citationIdList cits
    else .ok []
  | _ => .error .attrError

/-- All `sentence_keys` of one sentence, in order of appearance. -/
def collectSentenceKeys : List PyVal → Except PyErr (List String)
  | [] => .ok []
  | n :: ns =>
    match citeKeysOfNode n with
    | .error e => .error e
    | .ok ks =>
      match collectSentenceKeys ns with
      | .error e => .error e
      | .ok more => .ok (ks ++ more)

/-- Build one context dictionary (lines 138-144). -/
def mkCtx (key sec sent pre post : String) : CitationContext :=
  ⟨key, sec, sent, pre, post⟩

/-- The per-sentence processing loop (lines 122-144): for each sentence
with at least one citation, render the sentence, its predecessor and its
successor, and emit one context per distinct key in the set order `ord`. -/
def processSents (ord : List String → List String) (sec : String) :
    Option (List PyVal) → List (List PyVal) → Except PyErr (List CitationContext)
  | _, [] => .ok []
  | prev, s :: rest =>
    match collectSentenceKeys s with
    | .error e => .error e
    | .ok keys =>
      if keys = [] then processSents ord sec (some s) rest
      else
        match _get_plain_text_from_nodes (.list s) with
        | .error e => .error e
        | .ok sentText =>
          match (match prev with
                 | some p => _get_plain_text_from_nodes (.list p)
                 | Option.none => .ok "") with
          | .error e => .error e
          | .ok preText =>
            match (match rest with
                   | nxt :: _ => _get_plain_text_from_nodes (.list nxt)
                   | [] => .ok "") with
            | .error e => .error e
            | .ok postText =>
              match processSents ord sec (some s) rest with
              | .error e => .error e
              | .ok tail =>
                .ok (((ord keys).map fun k =>
                  mkCtx k sec (pyStripStr sentText) (pyStripStr preText)
                    (pyStripStr postText)) ++ tail)

/-- `f"{'#' * level} {header_text}"` for a `Header` block's content
(lines 103-105); the level must be an int when the string is built. -/
def headerSection (blockC : PyVal) : Except PyErr String :=
  match pyGetIndex blockC 0 with
  | .error e => .error e
  | .ok lvl =>
    match pyGetIndex blockC 2 with
    | .error e => .error e
    | .ok inl =>
      match _get_plain_text_from_nodes inl with
      | .error e => .error e
      | .ok htext =>
        match lvl with
        | .int n => .ok (hashRepeat n ++ " " ++ htext)
        | _ => .error .typeError

/-- The walk over top-level blocks, threading `current_section`
(lines 97-144). -/
def analyzeBlocksGo (ord : List String → List String) :
    List PyVal → String → Except PyErr (List CitationContext)
  | [], _ => .ok []
  | block :: rest, curSec =>
    match block with
    | .dict fields =>
      let t? := tagOf (pyLookup fields "t")
      if t? = some "Header" then
        match pyLookup fields "c" with
        | Option.none => .error .keyError
        | some c =>
          match headerSection c with
          | .error e => .error e
          | .ok newSec => analyzeBlocksGo ord rest newSec
      else if t? = some "Para" then
        match pyLookup fields "c" with
        | Option.none => .error .keyError
        | some c =>
          match pyIterate c with
          | .error e => .error e
          | .ok nodes =>
            match splitSentsAux nodes [] [] with
            | .error e => .error e
            | .ok sents =>
              match processSents ord curSec Option.none sents with
              | .error e => .error e
              | .ok cs =>
                match analyzeBlocksGo ord rest curSec with
                | .error e => .error e
                | .ok more => .ok (cs ++ more)
      else analyzeBlocksGo ord rest curSec
    | _ => .error .attrError

/-- `_analyze_contexts_from_ast`: read `self.data.get('blocks', [])`,
iterate the blocks, and collect all citation contexts (the default section
is the placeholder `"引言"`). -/
def _analyze_contexts_from_ast (ord : List String → List String) (data : PyVal) :
    Except PyErr (List CitationContext) :=
  match pyDotGetD data "blocks" (.list []) with
  | .error e => .error e
  | .ok blocks =>
    match pyIterate blocks with
    | .error e => .error e
    | .ok bl => analyzeBlocksGo ord bl "引言"

/-! ## `extract_all_data` (pandoc_analyzer.py, lines 146-166) -/

/-- `key in dict` for the reference mapping. -/
def containsKey (m : List (String × RefRecord)) (k : String) : Bool :=
  m.any fun kr => kr.1 = k

/-- Python dict assignment `d[k] = r`: overwrite in place when the key
exists (keeping its position), append otherwise. -/
def dictInsert (m : List (String × RefRecord)) (k : String) (r : RefRecord) :
    List (String × RefRecord) :=
  if containsKey m k then m.map (fun kr => if kr.1 = k then (kr.1, r) else kr)
  else m ++ [(k, r)]

/-- `{ref['key']: ref for ref in references}` (line 43): last write wins,
first insertion fixes the position. -/
def buildRefMap (refs : List RefRecord) : List (String × RefRecord) :=
  refs.foldl (fun m r => dictInsert m r.key r) []

/-- Merging one context into its record (lines 155-163): create the
`citations` list if absent, then append unless a context with the same
`citation_sentence` is already present. -/
def mergeOneCtx (r : RefRecord) (c : CitationContext) : RefRecord :=
  let r1 := if r.citations = Option.none then { r with citations := some [] } else r
  let cur := r1.citations.getD []
  if c.citation_sentence ∈ cur.map (fun x => x.citation_sentence) then r1
  else { r1 with citations := some (cur ++ [c]) }

/-- Folding a list of contexts into one record. -/
def mergeOneList (r : RefRecord) (cs : List CitationContext) : RefRecord :=
  cs.foldl mergeOneCtx r

/-- One iteration of the merge loop (lines 152-163): contexts whose key is
not in the mapping are dropped. -/
def mergeStep (m : List (String × RefRecord)) (c : CitationContext) :
    List (String × RefRecord) :=
  if containsKey m c.key then
    m.map fun kr => if kr.1 = c.key then (kr.1, mergeOneCtx kr.2 c) else kr
  else m

/-- The full merge loop over `self.citations`. -/
def mergeCitations (m : List (String × RefRecord)) (ctxs : List CitationContext) :
    List (String × RefRecord) :=
  ctxs.foldl mergeStep m

/-- `extract_all_data`: analyze the AST, merge the contexts into the
reference mapping built from `references`, and return the mapping's
values. -/
def extract_all_data (ord : List String → List String) (data : PyVal)
    (references : List RefRecord) : Except PyErr (List RefRecord) :=
  match _analyze_contexts_from_ast ord data with
  | .error e => .error e
  | .ok ctxs => .ok ((mergeCitations (buildRefMap references) ctxs).map Prod.snd)

/-! ## `LatexProjectParser` (latex_parser.py)

The pylatexenc node list of a file is modelled by `List TexNode`, where a
macro node carries its name and the plain-text renderings of its argument
node lists (the rendering itself is done by the external `LatexNodes2Text`).
The file system is a finite map from resolved paths to parse results;
`Option.none` as a parse result models a read/parse failure, which the code
catches (the file then contributes no further dependencies).  Path
resolution `(current_file.parent / rel).resolve()` is an external `pathlib`
operation, passed in as `resolve`. -/

/-- A pylatexenc node, as far as `_recursive_parse` inspects it. -/
inductive TexNode where
  | macroInv (name : String) (args : List String)
  | other
deriving DecidableEq

/-- The mutable state of `LatexProjectParser` (sets modelled as
duplicate-free insertion lists). -/
structure PState where
  processed : List String
  all_tex_files : List String
  bib_file_names : List String
deriving DecidableEq

/-- The initial parser state. -/
def initPState : PState := ⟨[], [], []⟩

/-- Marking a file as processed and found (lines 136-137 of
latex_parser.py). -/
def stAdd (st : PState) (cur : String) : PState :=
  { st with processed := insertSet st.processed cur,
            all_tex_files := insertSet st.all_tex_files cur }

/-- The project file system: resolved path ↦ parse result (`Option.none`
inside means reading/parsing the file raises, which is caught). -/
abbrev TexFS := List (String × Option (List TexNode))

/-- The target path of an `\input`/`\include` argument (lines 166-172):
strip the rendered argument, append `.tex` when missing, then resolve
relative to the current file (external `pathlib`, passed as `resolve`). -/
def resolveTarget (resolve : String → String → String) (cur arg : String) : String :=
  let rel := pyStripStr arg
  let rel := if pyEndsWith rel ".tex" then rel else rel ++ ".tex"
  resolve cur rel

/-- `_recursive_parse` (lines 127-187), indexed by fuel; the fuel is spent
only when a new, existing file's body is entered, so `fs.length + 1` units
suffice (claim C5 proves the result is fuel-independent from there on).
The loop body over the file's parsed nodes is the `foldl`; it is given the
standalone name `texNodeStep` below. -/
def recurseParseAux (fs : TexFS) (resolve : String → String → String) :
    Nat → String → PState → PState
  | 0, _, st => st
  | fuel + 1, cur, st =>
    if cur ∈ st.processed ∨ (fs.lookup cur).isNone then st
    else
      let st1 : PState :=
        { st with processed := insertSet st.processed cur,
                  all_tex_files := insertSet st.all_tex_files cur }
      match fs.lookup cur with
      | some (some nodes) =>
        nodes.foldl (fun s n =>
          match n with
          | .other => s
          | .macroInv name args =>
            match args with
            | [] => s
            | arg :: _ =>
              let m := pyRstripChars name ['*']
              if m = "input" ∨ m = "include" then
                recurseParseAux fs resolve fuel (resolveTarget resolve cur arg) s
              else if m = "bibliography" then
                let bibs := (pySplit arg ",").foldl
                  (fun acc p => insertSet acc (pyStripStr p)) s.bib_file_names
                { s with bib_file_names := bibs }
              else s) st1
      | _ => st1

/-- The body of the node loop of `_recursive_parse` (lines 153-183), as a
named function: handle one pylatexenc node, recursing into
`\input`/`\include` targets and collecting `\bibliography` arguments. -/
def texNodeStep (fs : TexFS) (resolve : String → String → String)
    (fuel : Nat) (cur : String) (s : PState) (n : TexNode) : PState :=
  match n with
  | .other => s
  | .macroInv name args =>
    match args with
    | [] => s
    | arg :: _ =>
      let m := pyRstripChars name ['*']
      if m = "input" ∨ m = "include" then
        recurseParseAux fs resolve fuel (resolveTarget resolve cur arg) s
      else if m = "bibliography" then
        let bibs := (pySplit arg ",").foldl
          (fun acc p => insertSet acc (pyStripStr p)) s.bib_file_names
        { s with bib_file_names := bibs }
      else s

/-- The loop over all parsed nodes of one file. -/
def goNodesAux (fs : TexFS) (resolve : String → String → String)
    (fuel : Nat) (cur : String) (ns : List TexNode) (st : PState) : PState :=
  ns.foldl (texNodeStep fs resolve fuel cur) st

/-- Run `_recursive_parse` from the entry file with adequate fuel. -/
def runRecursiveParse (fs : TexFS) (resolve : String → String → String)
    (entry : String) : PState :=
  recurseParseAux fs resolve (fs.length + 1) entry initPState

/-! ## `_find_main_tex_file` (latex_parser.py, lines 85-125) -/

/-- A file of the project tree, for entry-file discovery: its directory,
its name, and its text (`Option.none` when reading raises, which the scan
catches and skips). -/
structure TexFile where
  parent : String
  name : String
  content : Option String
deriving DecidableEq

/-- Whether a file name matches the `rglob('*.tex')` pattern. -/
def isTexName (n : String) : Bool := pyEndsWith n ".tex"

/-- Whether a candidate file contains the literal marker `\documentclass`
(line 102); unreadable files are skipped. -/
def hasDocumentClass (f : TexFile) : Bool :=
  match f.content with
  | some c => pyContainsSub c "\\documentclass"
  | Option.none => false

/-- Root-level `\documentclass` candidates, in discovery order. -/
def rootCandidates (base : String) (files : List TexFile) : List TexFile :=
  ((files.filter fun f => isTexName f.name).filter hasDocumentClass).filter
    fun f => f.parent = base

/-- Subdirectory-level `\documentclass` candidates, in discovery order. -/
def subCandidates (base : String) (files : List TexFile) : List TexFile :=
  ((files.filter fun f => isTexName f.name).filter hasDocumentClass).filter
    fun f => ¬ f.parent = base

/-- `_find_main_tex_file`: `main.tex` in the root wins outright; otherwise
prefer a root-level candidate named `paper.tex`, then `article.tex`
(case-insensitive), then the first root-level candidate, then the first
subdirectory candidate. -/
def _find_main_tex_file (base : String) (files : List TexFile) : Option TexFile :=
  match files.find? (fun f => f.parent = base && f.name = "main.tex") with
  | some f => some f
  | Option.none =>
    match (rootCandidates base files).find? (fun f => pyLower f.name = "paper.tex") with
    | some f => some f
    | Option.none =>
      match (rootCandidates base files).find? (fun f => pyLower f.name = "article.tex") with
      | some f => some f
      | Option.none =>
        match rootCandidates base files with
        | f :: _ => some f
        | [] => (subCandidates base files).head?

/-! ## `parse_references` (main.py, lines 41-96)

The structured strategy's `bibtexparser` call is the external `loadBib`
parameter (its `Except` result covers both read and parse exceptions, any
of which abandons the whole pass); `dumps` re-serializes one entry; the
`\bibitem` regular expression `findall` of the bbl fallback is the
external `findall` parameter returning the `(key, body)` matches. -/

/-- A bibtexparser entry, as far as the code reads it: the `ID`, `title`
and `author` fields, each possibly absent. -/
structure BibEntry where
  ID : Option String
  title : Option String
  author : Option String
deriving DecidableEq

/-- One structured-bibliography record (lines 58-63). -/
def mkBibRecord (dumps : BibEntry → String) (e : BibEntry) : RefRecord :=
  { key := _normalize_key (e.ID.getD "N/A")
  , inferred_title := pyStripChars (e.title.getD "未找到标题") ['{', '}']
  , inferred_author := e.author.getD "未找到作者"
  , content := dumps e
  , citations := Option.none }

/-- The pseudo-lines of a `\bibitem` body (line 81): split the stripped
body on the literal two-character sequence `\` `n` — not on newline
characters — strip each piece and keep the non-blank ones. -/
def bblPseudoLines (content_clean : String) : List String :=
  ((pySplit content_clean "\\n").map pyStripStr).filter fun l => ¬ l = ""

/-- The bbl author heuristic (line 82): first pseudo-line truncated before
the first literal `\newblock`, or a placeholder. -/
def bblAuthor (content_clean : String) : String :=
  match bblPseudoLines content_clean with
  | [] => "无法从.bbl提取作者"
  | l :: _ => pyStripStr ((pySplit l "\\newblock").headD "")

/-- The bbl title heuristic (lines 83-87): second `\newblock` piece,
truncated at `\emph{` and stripped of trailing punctuation and braces. -/
def bblTitle (content_clean : String) : String :=
  match pySplit content_clean "\\newblock" with
  | _ :: second :: _ =>
    let title_candidate := pyStripStr second
    pyStripChars
      (pyStripChars (pyStripStr ((pySplit title_candidate "\\emph\x7b").headD ""))
        ['.', ',', ' '])
      ['{', '}']
  | _ => "无法从.bbl提取标题"

/-- One bbl record (lines 78-91). -/
def mkBblRecord (key content : String) : RefRecord :=
  let content_clean := pyStripStr content
  { key := _normalize_key key
  , inferred_title := bblTitle content_clean
  , inferred_author := bblAuthor content_clean
  , content := content_clean
  , citations := Option.none }

/-- Strategy 2 of `parse_references` (lines 70-95): regex-extract
`(key, body)` pairs from the bbl content when a bbl source exists. -/
def parseBblStrategy (findall : String → List (String × String))
    (bbl : Option String) : List RefRecord :=
  match bbl with
  | some content => (findall content).map fun kc => mkBblRecord kc.1 kc.2
  | Option.none => []

/-- `parse_references`: try the structured parse of the first bib source;
on any exception discard that pass entirely and fall back to the bbl
strategy; with no bib source go to the bbl strategy directly. -/
def parse_references (loadBib : String → Except PyErr (List BibEntry))
    (dumps : BibEntry → String) (findall : String → List (String × String))
    (bib_texts : List String) (bbl : Option String) : List RefRecord :=
  match bib_texts with
  | b :: _ =>
    match loadBib b with
    | .ok entries => entries.map (mkBibRecord dumps)
    | .error _ => parseBblStrategy findall bbl
  | [] => parseBblStrategy findall bbl

/-! ## Spec-side characterizations and auxiliary predicates -/

/-- First-occurrence-by-`citation_sentence` deduplication, given the set of
sentences already present: the characterization of how a record's
`citations` list grows in `extract_all_data`. -/
def dedupBySent (seen : List String) : List CitationContext → List CitationContext
  | [] => []
  | c :: l =>
    if c.citation_sentence ∈ seen then dedupBySent seen l
    else c :: dedupBySent (seen ++ [c.citation_sentence]) l

/-- "File `cur`'s parsed nodes contain an `\input`/`\include` macro whose
argument resolves to `target`". -/
def IncludesTo (resolve : String → String → String) (cur : String)
    (ns : List TexNode) (target : String) : Prop :=
  ∃ name arg rest, TexNode.macroInv name (arg :: rest) ∈ ns ∧
    (pyRstripChars name ['*'] = "input" ∨ pyRstripChars name ['*'] = "include") ∧
    resolveTarget resolve cur arg = target

/-- Number of keys of `keys` not yet in the processed list `proc` — the
termination measure of the inclusion walk. -/
def unprocCount (keys proc : List String) : Nat :=
  (keys.filter fun p => ¬ p ∈ proc).length

/-- The measure applied to a walk state. -/
def unproc (fs : TexFS) (st : PState) : Nat :=
  unprocCount (fs.map Prod.fst) st.processed

/-- Relation between a walk state and any later walk state: the processed
set only grows, only with project files, stays duplicate-free, and stays
in sync with `all_tex_files`. -/
def WalkInv (fs : TexFS) (st st' : PState) : Prop :=
  (∀ p, p ∈ st.processed → p ∈ st'.processed) ∧
  (∀ p, p ∈ st'.processed → p ∈ st.processed ∨ p ∈ fs.map Prod.fst) ∧
  (st.processed.Nodup → st'.processed.Nodup) ∧
  (st.all_tex_files = st.processed → st'.all_tex_files = st'.processed)

/-- Two context lists that agree on the subsequence of contexts of every
key (all that the merge into reference records can observe). -/
def ctxRel (l₁ l₂ : List CitationContext) : Prop :=
  ∀ k, l₁.filter (fun c => c.key = k) = l₂.filter (fun c => c.key = k)

/-- `ctxRel` lifted to analyzer results (errors must agree exactly). -/
def exCtxRel : Except PyErr (List CitationContext) →
    Except PyErr (List CitationContext) → Prop
  | .ok l₁, .ok l₂ => ctxRel l₁ l₂
  | .error e₁, .error e₂ => e₁ = e₂
  | _, _ => False

/-! ## Concrete instances used by witnesses and counterexamples -/

/-- `Str "Intro"`. -/
def strIntro : PyVal := .dict [("t", .str "Str"), ("c", .str "Intro")]

/-- `Header(1, "Intro")` with an empty attribute slot. -/
def headerB : PyVal :=
  .dict [("t", .str "Header"), ("c", .list [.int 1, .list [], .list [strIntro]])]

/-- The citation descriptor `{citationId: "Foo"}`. -/
def citDesc : PyVal := .dict [("citationId", .str "Foo")]

/-- `Str "[1]"`, the pre-rendered citation marker. -/
def strBr : PyVal := .dict [("t", .str "Str"), ("c", .str "[1]")]

/-- The `Cite` node with descriptor list `[citDesc]` and rendered inlines
`[Str "[1]"]`. -/
def citeN : PyVal := .dict [("t", .str "Cite"), ("c", .list [.list [citDesc], .list [strBr]])]

/-- `Str "See"`. -/
def strSee : PyVal := .dict [("t", .str "Str"), ("c", .str "See")]

/-- A `Space` node. -/
def spaceN : PyVal := .dict [("t", .str "Space")]

/-- `Str "."`. -/
def strDot : PyVal := .dict [("t", .str "Str"), ("c", .str ".")]

/-- `Para([Str "See", Space, Cite(..), Str "."])`. -/
def paraB : PyVal := .dict [("t", .str "Para"), ("c", .list [strSee, spaceN, citeN, strDot])]

/-- The claim C1 document tree: `blocks = [Header(1,"Intro"), Para(...)]`. -/
def c1Doc : PyVal := .dict [("blocks", .list [headerB, paraB])]

/-- The single input reference record with key `"foo"`. -/
def c1Ref : RefRecord := ⟨"foo", "T", "A", "C", Option.none⟩

/-- A structured-bibliography entry used by the C2 witness. -/
def entW : BibEntry := ⟨some "Foo", some "\x7bT\x7d", some "A"⟩

/-- A loader that succeeds with `[entW]` (C2 witness). -/
def loadBibW : String → Except PyErr (List BibEntry) := fun _ => .ok [entW]

/-- A trivial re-serializer (C2 witness). -/
def dumpsW : BibEntry → String := fun _ => "D"

/-- A bbl matcher returning one entry (C2 witness: it must not be consulted). -/
def findallW : String → List (String × String) := fun _ => [("K", "B")]

/-- Identity-like path resolution for concrete walk instances. -/
def resolveW : String → String → String := fun _ rel => rel

/-- The cyclic two-file project of the C5 witness. -/
def fsW : TexFS :=
  [("A.tex", some [.macroInv "input" ["B"]]), ("B.tex", some [.macroInv "include" ["A"]])]

/-- A one-file project whose `\bibliography` argument has a trailing comma
(C8 counterexample). -/
def fs8 : TexFS := [("m.tex", some [.macroInv "bibliography" ["a,"]])]

/-- A root-level `main.tex` (C9 witness; content is irrelevant for the
direct `main.tex` check). -/
def mainF : TexFile := ⟨"r", "main.tex", Option.none⟩

/-- A root-level `paper.tex` carrying a `\documentclass` declaration
(C9 witness). -/
def paperF : TexFile := ⟨"r", "paper.tex", some "\\documentclass\x7barticle\x7d"⟩

/-- Two input records sharing the key `"a"` (C10 counterexample). -/
def c10r1 : RefRecord := ⟨"a", "T1", "A1", "C1", Option.none⟩

/-- The later record with the same key (C10 counterexample). -/
def c10r2 : RefRecord := ⟨"a", "T2", "A2", "C2", Option.none⟩

/-- A context and a variant with identical sentence but different
post-context (C3 witness). -/
def ctx1 : CitationContext := ⟨"foo", "# S", "Sent one.", "", "next"⟩

/-- Same key and sentence as `ctx1`, different `post_context`. -/
def ctx2 : CitationContext := ⟨"foo", "# S", "Sent one.", "", "other"⟩

/-- A context whose key matches no record (C3 witness). -/
def ctx3 : CitationContext := ⟨"bar", "# S", "Other sent.", "", ""⟩

/-! # Theorems -/

/-! ## String-level helper lemmas -/

/-- Rebuilding a string from its character list is the identity. -/
theorem string_mk_toList (s : String) : String.mk s.toList = s := by
  cases s
  rfl

/-- If the separator never occurs, the split worker returns a single
piece. -/
theorem listSplitOnAux_no_sep (sep : List Char) :
    ∀ fuel s acc, s.length ≤ fuel → hasSubSeq s sep = false →
      listSplitOnAux sep fuel s acc = [acc.reverse ++ s] := by
  intro fuel
  induction fuel with
  | zero =>
    intro s acc hlen _
    cases s with
    | nil => simp [listSplitOnAux]
    | cons c t => simp at hlen
  | succ f ih =>
    intro s acc hlen hsub
    cases s with
    | nil => simp [listSplitOnAux]
    | cons c t =>
      have hsub' := hsub
      unfold hasSubSeq at hsub'
      rw [Bool.or_eq_false_iff] at hsub'
      have hpre : sep.isPrefixOf (c :: t) = false := hsub'.1
      rw [listSplitOnAux]
      rw [if_neg (by simp [hpre])]
      rw [ih t (c :: acc) (by simpa using Nat.le_of_succ_le_succ hlen) hsub'.2]
      simp

/-- Python `split` on a separator that does not occur in the string (in
particular, on the literal `\n` when the body merely contains real newline
characters) returns the whole string as the only piece. -/
theorem pySplit_no_sep (s sep : String) (h : pyContainsSub s sep = false) :
    pySplit s sep = [s] := by
  unfold pySplit
  rw [listSplitOnAux_no_sep sep.toList s.toList.length s.toList [] le_rfl h]
  simp [string_mk_toList]

/-! ## C1 -/

/-- C1: for the document `[Header(1,"Intro"), Para([Str "See", Space,
Cite([{citationId:"Foo"}], [Str "[1]"]), Str "."])]` and the single
reference record with key `"foo"`, extraction produces exactly one
`CitationContext` on the `"foo"` record, with section `"# Intro"`,
sentence `"See [1]."`, and empty pre/post context. -/
theorem C1_end_to_end :
    extract_all_data pySetList c1Doc [c1Ref] =
      .ok [{ c1Ref with citations := some [⟨"foo", "# Intro", "See [1].", "", ""⟩] }] := rfl

/-! ## C2 -/

/-- C2: with a non-empty bib-source list, a successful structured parse of
the first source determines the whole result (one record per entry, the
bbl source never consulted — the result is the same for every bbl
argument), and a raising structured parse discards that pass entirely:
the result is exactly the bbl fallback's. -/
theorem C2_bib_priority_and_fallback
    (loadBib : String → Except PyErr (List BibEntry)) (dumps : BibEntry → String)
    (findall : String → List (String × String)) (b : String) (rest : List String)
    (bbl : Option String) :
    (∀ entries, loadBib b = .ok entries →
      parse_references loadBib dumps findall (b :: rest) bbl =
        entries.map (mkBibRecord dumps) ∧
      ∀ bbl₂, parse_references loadBib dumps findall (b :: rest) bbl =
        parse_references loadBib dumps findall (b :: rest) bbl₂) ∧
    (∀ e, loadBib b = .error e →
      parse_references loadBib dumps findall (b :: rest) bbl =
        parseBblStrategy findall bbl) := by
  constructor
  · intro entries h
    constructor
    · simp [parse_references, h]
    · intro bbl₂
      simp [parse_references, h]
  · intro e h
    simp [parse_references, h]

/-- Witness for C2 at a concrete successful loader. -/
theorem C2_witness :
    parse_references loadBibW dumpsW findallW ["b"] (some "z") =
      [mkBibRecord dumpsW entW] :=
  ((C2_bib_priority_and_fallback loadBibW dumpsW findallW "b" [] (some "z")).1
    [entW] rfl).1

/-! ## C7 -/

/-- C7: the bbl author heuristic splits the body into pseudo-lines on the
literal two-character sequence `\` `n` — a body without that literal
sequence is a single pseudo-line even if it contains real newline
characters — and the author is the first non-blank pseudo-line truncated
before the first literal `\newblock`, with a placeholder when no pseudo-line
exists. -/
theorem C7_bbl_literal_split (content : String) :
    (pyContainsSub content "\\n" = false →
      bblPseudoLines content =
        if pyStripStr content = "" then [] else [pyStripStr content]) ∧
    (bblPseudoLines content = [] → bblAuthor content = "无法从.bbl提取作者") ∧
    (∀ l rest, bblPseudoLines content = l :: rest →
      bblAuthor content = pyStripStr ((pySplit l "\\newblock").headD "")) := by
  refine ⟨?_, ?_, ?_⟩
  · intro h
    unfold bblPseudoLines
    rw [pySplit_no_sep content "\\n" h]
    by_cases hs : pyStripStr content = "" <;> simp [hs]
  · intro h
    unfold bblAuthor
    rw [h]
  · intro l rest h
    unfold bblAuthor
    rw [h]

/-- Witness for C7: a body containing a real newline (and no literal
`\n` escape) stays one pseudo-line. -/
theorem C7_witness :
    bblPseudoLines "A
B" = if pyStripStr "A
B" = "" then [] else [pyStripStr "A
B"] :=
  (C7_bbl_literal_split "A
B").1 rfl

/-! ## C8 -/

/-- C8 counterexample: in a project whose `\bibliography` argument renders
to `"a,"`, the trailing comma yields a piece that is empty after trimming,
and the empty string IS added to `bib_file_names` — refuting the claim
that such a piece adds nothing. -/
theorem C8_counterexample :
    "" ∈ (runRecursiveParse fs8 resolveW "m.tex").bib_file_names := by decide

/-- C8 (amended): a `\bibliography` macro invocation with an argument
splits the rendered argument on commas, trims each piece, and adds every
trimmed piece to `bib_file_names` — including pieces that are empty after
trimming (the set only suppresses duplicates). -/
theorem C8_bibliography_pieces (fs : TexFS) (resolve : String → String → String)
    (fuel : Nat) (cur : String) (st : PState) (arg : String) (rest : List String) :
    texNodeStep fs resolve fuel cur st (.macroInv "bibliography" (arg :: rest)) =
      PState.mk st.processed st.all_tex_files
        ((pySplit arg ",").foldl (fun acc p => insertSet acc (pyStripStr p))
          st.bib_file_names) := by
  cases st
  rfl

/-! ## C9 -/

/-- C9: entry-file discovery is the ordered heuristic with first match
winning: a root-level `main.tex` is selected unconditionally (even when a
paper-named candidate with a `\documentclass` declaration exists);
otherwise the first root-level candidate named `paper.tex`, then
`article.tex` (case-insensitively), then the first root-level candidate in
discovery order, then the first subdirectory-level candidate in discovery
order. -/
theorem C9_entry_file_priority (base : String) (files : List TexFile) :
    (∀ f, files.find? (fun g => g.parent = base && g.name = "main.tex") = some f →
      _find_main_tex_file base files = some f) ∧
    (files.find? (fun g => g.parent = base && g.name = "main.tex") = Option.none →
      (∀ f, (rootCandidates base files).find? (fun g => pyLower g.name = "paper.tex") = some f →
        _find_main_tex_file base files = some f) ∧
      ((rootCandidates base files).find? (fun g => pyLower g.name = "paper.tex") = Option.none →
        (∀ f, (rootCandidates base files).find?
            (fun g => pyLower g.name = "article.tex") = some f →
          _find_main_tex_file base files = some f) ∧
        ((rootCandidates base files).find?
            (fun g => pyLower g.name = "article.tex") = Option.none →
          (∀ f tl, rootCandidates base files = f :: tl →
            _find_main_tex_file base files = some f) ∧
          (rootCandidates base files = [] →
            _find_main_tex_file base files = (subCandidates base files).head?)))) := by
  refine ⟨?_, ?_⟩
  · intro f h
    simp [_find_main_tex_file, h]
  · intro hmain
    refine ⟨?_, ?_⟩
    · intro f h
      simp [_find_main_tex_file, hmain, h]
    · intro hpaper
      refine ⟨?_, ?_⟩
      · intro f h
        simp [_find_main_tex_file, hmain, hpaper, h]
      · intro harticle
        refine ⟨?_, ?_⟩
        · intro f tl h
          simp [_find_main_tex_file, hmain, h, List.find?_cons] at *
          simp [_find_main_tex_file, hmain, hpaper, harticle, h]
        · intro h
          simp [_find_main_tex_file, hmain, hpaper, harticle, h]

/-- Witness for C9: `main.tex` beats a root-level `paper.tex` that carries
a `\documentclass` declaration. -/
theorem C9_witness : _find_main_tex_file "r" [paperF, mainF] = some mainF :=
  (C9_entry_file_priority "r" [paperF, mainF]).1 mainF rfl

/-! ## C6 -/

/-- C6 counterexample: a document whose top-level `blocks` field is
malformed (here the number `0`) makes extraction raise a `TypeError`
(iterating a non-iterable), refuting "yields zero citation contexts and
does not raise an error" for every malformed `blocks` field. -/
theorem C6_counterexample :
    extract_all_data pySetList (PyVal.dict [("blocks", PyVal.int 0)]) [] =
      .error .typeError := rfl

/-- C6 (amended): a document object with a missing `blocks` field yields
zero contexts without raising; an individual node that is a mapping
missing its optional `t` tag (and having no `c` field) contributes nothing
to rendered text rather than raising, and such a block is skipped by the
walk; but a malformed (non-iterable) `blocks` value raises instead of
yielding zero contexts. -/
theorem C6_blocks_tolerance :
    (∀ (ord : List String → List String) (fields : List (String × PyVal)),
      pyLookup fields "blocks" = Option.none →
      _analyze_contexts_from_ast ord (.dict fields) = .ok []) ∧
    (∀ (fuel : Nat) (fields : List (String × PyVal)),
      pyLookup fields "t" = Option.none → pyLookup fields "c" = Option.none →
      nodePartsAux (fuel + 1) (.dict fields) = .ok []) ∧
    (∀ (ord : List String → List String) (rest : List PyVal) (sec : String)
      (fields : List (String × PyVal)),
      pyLookup fields "t" = Option.none →
      analyzeBlocksGo ord (.dict fields :: rest) sec = analyzeBlocksGo ord rest sec) := by
  refine ⟨?_, ?_, ?_⟩
  · intro ord fields h
    simp [_analyze_contexts_from_ast, pyDotGetD, h, pyIterate, analyzeBlocksGo]
  · intro fuel fields ht hc
    simp [nodePartsAux, ht, hc, tagOf]
  · intro ord rest sec fields ht
    simp [analyzeBlocksGo, ht, tagOf]

/-- Witness for C6 (amended): a concrete document object without a
`blocks` field yields zero contexts. -/
theorem C6_witness :
    _analyze_contexts_from_ast pySetList (.dict [("x", PyVal.int 1)]) = .ok [] :=
  C6_blocks_tolerance.1 pySetList [("x", PyVal.int 1)] rfl

/-! ## Merge-layer lemmas (extract_all_data, lines 146-166) -/

/-- One merge step never changes the four bibliographic fields. -/
theorem mergeOneCtx_fields (r : RefRecord) (c : CitationContext) :
    (mergeOneCtx r c).key = r.key ∧
    (mergeOneCtx r c).inferred_title = r.inferred_title ∧
    (mergeOneCtx r c).inferred_author = r.inferred_author ∧
    (mergeOneCtx r c).content = r.content := by
  unfold mergeOneCtx
  by_cases h : r.citations = Option.none
  · simp only [h, if_pos]
    split <;> simp
  · simp only [h, if_neg, ite_false]
    split <;> simp

/-- Folding contexts into a record never changes the four bibliographic
fields. -/
theorem mergeOneList_fields (cs : List CitationContext) :
    ∀ r : RefRecord,
      (mergeOneList r cs).key = r.key ∧
      (mergeOneList r cs).inferred_title = r.inferred_title ∧
      (mergeOneList r cs).inferred_author = r.inferred_author ∧
      (mergeOneList r cs).content = r.content := by
  induction cs with
  | nil => intro r; simp [mergeOneList]
  | cons c cs ih =>
    intro r
    have h1 := mergeOneCtx_fields r c
    have h2 := ih (mergeOneCtx r c)
    simp only [mergeOneList, List.foldl_cons] at *
    exact ⟨h2.1.trans h1.1, (h2.2.1).trans h1.2.1,
           (h2.2.2.1).trans h1.2.2.1, (h2.2.2.2).trans h1.2.2.2⟩

/-- Folding contexts into a record whose `citations` list already exists
appends exactly the contexts whose sentences are new, first occurrence per
sentence. -/
theorem mergeOneList_some (cs : List CitationContext) :
    ∀ (r : RefRecord) (ks : List CitationContext), r.citations = some ks →
      mergeOneList r cs =
        RefRecord.mk r.key r.inferred_title r.inferred_author r.content
          (some (ks ++ dedupBySent (ks.map fun x => x.citation_sentence) cs)) := by
  induction cs with
  | nil =>
    intro r ks h
    cases r
    simp_all [mergeOneList, dedupBySent]
  | cons c cs ih =>
    intro r ks h
    simp only [mergeOneList, List.foldl_cons]
    by_cases hmem : c.citation_sentence ∈ ks.map fun x => x.citation_sentence
    · have hstep : mergeOneCtx r c = r := by
        unfold mergeOneCtx
        simp [h, hmem]
      rw [hstep]
      have hih := ih r ks h
      rw [mergeOneList] at hih
      rw [hih, dedupBySent, if_pos hmem]
    · have hstep : mergeOneCtx r c =
          RefRecord.mk r.key r.inferred_title r.inferred_author r.content
            (some (ks ++ [c])) := by
        unfold mergeOneCtx
        cases r
        simp_all
      rw [hstep]
      have hih := ih (RefRecord.mk r.key r.inferred_title r.inferred_author r.content
        (some (ks ++ [c]))) (ks ++ [c]) rfl
      rw [mergeOneList] at hih
      rw [hih, dedupBySent, if_neg hmem]
      simp

/-- Folding contexts into a record without a `citations` field: an empty
context list leaves the record untouched (no `citations` key is created);
a non-empty one creates the list with first-occurrence-per-sentence
contents. -/
theorem mergeOneList_none (r : RefRecord) (h : r.citations = Option.none) :
    mergeOneList r [] = r ∧
    ∀ c cs, mergeOneList r (c :: cs) =
      RefRecord.mk r.key r.inferred_title r.inferred_author r.content
        (some (dedupBySent [] (c :: cs))) := by
  constructor
  · rfl
  · intro c cs
    simp only [mergeOneList, List.foldl_cons]
    have hstep : mergeOneCtx r c =
        RefRecord.mk r.key r.inferred_title r.inferred_author r.content (some [c]) := by
      unfold mergeOneCtx
      cases r
      simp_all
    rw [hstep, ← mergeOneList]
    rw [mergeOneList_some cs _ [c] rfl]
    rw [dedupBySent, if_neg (by simp)]
    simp

/-- The `citations` list of a merged record is the first-occurrence-per-
sentence filter of the contexts folded in. -/
theorem citationsOf_mergeOneList (r : RefRecord) (h : r.citations = Option.none)
    (cs : List CitationContext) :
    citationsOf (mergeOneList r cs) = dedupBySent [] cs := by
  cases cs with
  | nil =>
    rw [(mergeOneList_none r h).1]
    simp [citationsOf, h, dedupBySent]
  | cons c cs =>
    rw [(mergeOneList_none r h).2 c cs]
    simp [citationsOf]

/-- A key that is absent from the mapping makes `mergeStep` a no-op, and
every entry's key differs from the context's. -/
theorem containsKey_false_forall (m : List (String × RefRecord)) (k : String)
    (h : containsKey m k = false) : ∀ kr ∈ m, ¬ kr.1 = k := by
  intro kr hkr
  simp [containsKey] at h
  exact h kr.1 kr.2 hkr

/-- The merge loop factors through the entries: each record receives
exactly the contexts whose key names it, in order. -/
theorem mergeCitations_factor (ctxs : List CitationContext) :
    ∀ m : List (String × RefRecord),
      mergeCitations m ctxs =
        m.map fun kr => (kr.1, mergeOneList kr.2 (ctxs.filter fun c => c.key = kr.1)) := by
  induction ctxs with
  | nil =>
    intro m
    simp [mergeCitations, mergeOneList, List.filter]
  | cons c ctxs ih =>
    intro m
    have hstep : mergeCitations m (c :: ctxs) = mergeCitations (mergeStep m c) ctxs := rfl
    rw [hstep, ih]
    by_cases h : containsKey m c.key
    · unfold mergeStep
      rw [if_pos h, List.map_map]
      apply List.map_congr_left
      intro kr _
      by_cases hk : kr.1 = c.key
      · simp only [Function.comp_apply, if_pos hk, List.filter_cons]
        have hd : decide (c.key = kr.1) = true := by simp [hk]
        rw [hd]
        simp [mergeOneList]
      · simp only [Function.comp_apply, if_neg hk, List.filter_cons]
        have hd : decide (c.key = kr.1) = false := by
          simp only [decide_eq_false_iff_not]
          exact fun hcc => hk hcc.symm
        rw [hd]
        simp
    · unfold mergeStep
      rw [if_neg (by simp [h])]
      apply List.map_congr_left
      intro kr hkr
      have hne := containsKey_false_forall m c.key (by simpa using h) kr hkr
      rw [List.filter_cons]
      have : ¬ c.key = kr.1 := fun hcc => hne hcc.symm
      simp [this]

/-- Every entry of the reference mapping pairs a record with its own key,
and carries an input record. -/
theorem buildRefMap_mem (refs : List RefRecord) :
    ∀ kv ∈ buildRefMap refs, kv.1 = kv.2.key ∧ kv.2 ∈ refs := by
  have go : ∀ (rs : List RefRecord) (acc : List (String × RefRecord)),
      ∀ kv ∈ rs.foldl (fun m r => dictInsert m r.key r) acc,
        kv ∈ acc ∨ (kv.1 = kv.2.key ∧ kv.2 ∈ rs) := by
    intro rs
    induction rs with
    | nil => intro acc kv h; exact Or.inl h
    | cons r rs ih =>
      intro acc kv h
      simp only [List.foldl_cons] at h
      rcases ih (dictInsert acc r.key r) kv h with h' | h'
      · unfold dictInsert at h'
        by_cases hc : containsKey acc r.key
        · rw [if_pos hc] at h'
          rcases List.mem_map.mp h' with ⟨kr, hkr, hEq⟩
          by_cases hk : kr.1 = r.key
          · right
            rw [if_pos hk] at hEq
            rw [← hEq]
            simp [hk]
          · left
            rw [if_neg hk] at hEq
            rw [← hEq]
            exact hkr
        · rw [if_neg hc] at h'
          rcases List.mem_append.mp h' with h'' | h''
          · exact Or.inl h''
          · right
            simp at h''
            rw [h'']
            simp
      · right
        exact ⟨h'.1, List.mem_cons_of_mem _ h'.2⟩
  intro kv h
  rcases go refs [] kv h with h' | h'
  · simp at h'
  · exact h'

/-- With pairwise-distinct keys the mapping is the input list itself,
keyed. -/
theorem buildRefMap_nodup (refs : List RefRecord)
    (h : (refs.map fun r => r.key).Nodup) :
    buildRefMap refs = refs.map fun r => (r.key, r) := by
  have go : ∀ (rs : List RefRecord) (acc : List (String × RefRecord)),
      (rs.map fun r => r.key).Nodup →
      (∀ kv ∈ acc, ∀ r ∈ rs, ¬ kv.1 = r.key) →
      rs.foldl (fun m r => dictInsert m r.key r) acc = acc ++ rs.map fun r => (r.key, r) := by
    intro rs
    induction rs with
    | nil => intro acc _ _; simp
    | cons r rs ih =>
      intro acc hnd hacc
      simp only [List.foldl_cons]
      have hc : containsKey acc r.key = false := by
        by_contra hc'
        simp only [Bool.not_eq_false, containsKey, List.any_eq_true] at hc'
        rcases hc' with ⟨kv, hkv, hEq⟩
        exact hacc kv hkv r (List.mem_cons_self r rs) (by simpa using hEq)
      rw [show dictInsert acc r.key r = acc ++ [(r.key, r)] by
        unfold dictInsert; rw [if_neg (by simp [hc])]]
      rw [ih (acc ++ [(r.key, r)]) (by simpa using hnd.of_cons)
        (by
          intro kv hkv r' hr'
          rcases List.mem_append.mp hkv with h' | h'
          · exact hacc kv h' r' (List.mem_cons_of_mem _ hr')
          · simp at h'
            rw [h']
            simp only [List.map_cons, List.nodup_cons] at hnd
            intro hEq
            apply hnd.1
            rw [show (r.key, r).1 = r.key from rfl] at hEq
            rw [hEq]
            exact List.mem_map_of_mem (fun r => r.key) hr')]
      simp
  simpa using go refs [] h (by simp)

/-- Distinct keys identify records within the input list. -/
theorem nodup_key_inj (refs : List RefRecord)
    (h : (refs.map fun r => r.key).Nodup) :
    ∀ a ∈ refs, ∀ b ∈ refs, a.key = b.key → a = b := by
  induction refs with
  | nil => intro a ha; simp at ha
  | cons r rs ih =>
    intro a ha b hb hk
    simp only [List.map_cons, List.nodup_cons] at h
    rcases List.mem_cons.mp ha with ha' | ha' <;>
      rcases List.mem_cons.mp hb with hb' | hb'
    · rw [ha', hb']
    · exfalso
      apply h.1
      rw [ha'] at hk
      exact hk ▸ List.mem_map_of_mem (fun r => r.key) hb'
    · exfalso
      apply h.1
      rw [hb'] at hk
      exact hk ▸ List.mem_map_of_mem (fun r => r.key) ha'
    · exact ih h.2 a ha' b hb' hk

/-- Deduplication only drops elements. -/
theorem dedupBySent_subset (cs : List CitationContext) :
    ∀ seen c, c ∈ dedupBySent seen cs → c ∈ cs := by
  induction cs with
  | nil => intro seen c h; simp [dedupBySent] at h
  | cons d cs ih =>
    intro seen c h
    rw [dedupBySent] at h
    by_cases hm : d.citation_sentence ∈ seen
    · rw [if_pos hm] at h
      exact List.mem_cons_of_mem _ (ih _ c h)
    · rw [if_neg hm] at h
      rcases List.mem_cons.mp h with h' | h'
      · exact h' ▸ List.mem_cons_self d cs
      · exact List.mem_cons_of_mem _ (ih _ c h')

/-! ## C3 -/

/-- C3: after the walk, a produced context is appended to the record whose
key it names unless that record's list already holds a context with
byte-identical `citation_sentence` (suppressed even if pre/post differ) —
each output record's `citations` list is exactly the
first-occurrence-per-sentence filter of the contexts bearing its key —
and a context whose key matches no reference record appears in no output
record's `citations` list. -/
theorem C3_merge_dedup_and_drop (refs : List RefRecord) (ctxs : List CitationContext)
    (h : ∀ r ∈ refs, r.citations = Option.none) :
    (∀ r ∈ (mergeCitations (buildRefMap refs) ctxs).map Prod.snd,
      citationsOf r = dedupBySent [] (ctxs.filter fun c => c.key = r.key)) ∧
    (∀ c ∈ ctxs, (∀ ref ∈ refs, ¬ ref.key = c.key) →
      ∀ r ∈ (mergeCitations (buildRefMap refs) ctxs).map Prod.snd,
        ¬ c ∈ citationsOf r) := by
  have hout : ∀ r ∈ (mergeCitations (buildRefMap refs) ctxs).map Prod.snd,
      ∃ kv ∈ buildRefMap refs,
        r = mergeOneList kv.2 (ctxs.filter fun c => c.key = kv.1) := by
    intro r hr
    rw [mergeCitations_factor] at hr
    rcases List.mem_map.mp hr with ⟨kr2, hkr2, hEq⟩
    rcases List.mem_map.mp hkr2 with ⟨kv, hkv, hEq2⟩
    exact ⟨kv, hkv, by rw [← hEq, ← hEq2]⟩
  constructor
  · intro r hr
    rcases hout r hr with ⟨kv, hkv, hEq⟩
    obtain ⟨hk1, hk2⟩ := buildRefMap_mem refs kv hkv
    have hnone := h kv.2 hk2
    subst hEq
    rw [citationsOf_mergeOneList kv.2 hnone, (mergeOneList_fields _ kv.2).1, ← hk1]
  · intro c hc hcnone r hr hmem
    rcases hout r hr with ⟨kv, hkv, hEq⟩
    obtain ⟨hk1, hk2⟩ := buildRefMap_mem refs kv hkv
    have hnone := h kv.2 hk2
    rw [hEq, citationsOf_mergeOneList kv.2 hnone] at hmem
    have hsub := dedupBySent_subset _ [] c hmem
    have hfil := List.mem_filter.mp hsub
    have hck : c.key = kv.1 := by simpa using hfil.2
    apply hcnone kv.2 hk2
    rw [← hk1]
    exact hck.symm

/-- Witness for C3: one record keyed `"foo"`, two contexts with the same
sentence and a context with an unknown key. -/
theorem C3_witness :
    (∀ r ∈ (mergeCitations (buildRefMap [c1Ref]) [ctx1, ctx2, ctx3]).map Prod.snd,
      citationsOf r = dedupBySent [] ([ctx1, ctx2, ctx3].filter fun c => c.key = r.key)) ∧
    (∀ c ∈ [ctx1, ctx2, ctx3], (∀ ref ∈ [c1Ref], ¬ ref.key = c.key) →
      ∀ r ∈ (mergeCitations (buildRefMap [c1Ref]) [ctx1, ctx2, ctx3]).map Prod.snd,
        ¬ c ∈ citationsOf r) :=
  C3_merge_dedup_and_drop [c1Ref] [ctx1, ctx2, ctx3] (by decide)

/-! ## C10 -/

/-- C10 counterexample: two input records share the key `"a"`; with no
extracted contexts at all, the earlier record is not returned (last write
wins), refuting "extract_all_data returns that record unchanged" for every
input record whose key matches no context. -/
theorem C10_counterexample :
    extract_all_data pySetList (PyVal.dict []) [c10r1, c10r2] = .ok [c10r2] ∧
    ¬ c10r1 ∈ [c10r2] := ⟨rfl, by decide⟩

/-- C10 (amended): provided the input records' keys are pairwise distinct
(when two records share a key only the later one is keyed — last write
wins), every input record whose key matches no extracted context is
returned as-is — in particular still without a `citations` entry, since
the list is created lazily at the first merged context — and for matched
records every field other than `citations` is unchanged. -/
theorem C10_lazy_frame (ord : List String → List String) (data : PyVal)
    (refs : List RefRecord) (ctxs : List CitationContext) (out : List RefRecord)
    (hctx : _analyze_contexts_from_ast ord data = .ok ctxs)
    (hout : extract_all_data ord data refs = .ok out)
    (hkeys : (refs.map fun r => r.key).Nodup)
    (hnone : ∀ r ∈ refs, r.citations = Option.none) :
    ∀ r ∈ refs,
      ((∀ c ∈ ctxs, ¬ c.key = r.key) → r ∈ out) ∧
      (∀ r' ∈ out, r'.key = r.key →
        r'.inferred_title = r.inferred_title ∧
        r'.inferred_author = r.inferred_author ∧ r'.content = r.content) := by
  have hout' : out = (mergeCitations (buildRefMap refs) ctxs).map Prod.snd := by
    unfold extract_all_data at hout
    rw [hctx] at hout
    injection hout with h'
    exact h'.symm
  subst hout'
  rw [mergeCitations_factor, buildRefMap_nodup refs hkeys, List.map_map, List.map_map]
  intro r hr
  constructor
  · intro hno
    apply List.mem_map.mpr
    refine ⟨r, hr, ?_⟩
    have hfil : (ctxs.filter fun c => c.key = r.key) = [] := by
      rw [List.filter_eq_nil_iff]
      intro c hc
      simpa using hno c hc
    simp only [Function.comp_apply]
    rw [hfil]
    exact (mergeOneList_none r (hnone r hr)).1
  · intro r' hr' hkEq
    rcases List.mem_map.mp hr' with ⟨v, hv, hEq⟩
    simp only [Function.comp_apply] at hEq
    have hfields := mergeOneList_fields (ctxs.filter fun c => c.key = v.key) v
    have hvr : v = r := by
      apply nodup_key_inj refs hkeys v hv r hr
      rw [← hkEq, ← hEq]
      exact hfields.1.symm
    subst hvr
    rw [← hEq]
    exact ⟨hfields.2.1, hfields.2.2.1, hfields.2.2.2⟩

/-- Witness for C10 (amended): a single record, no contexts, instantiated
at that record. -/
theorem C10_witness :
    ((∀ c ∈ ([] : List CitationContext), ¬ c.key = c10r1.key) → c10r1 ∈ [c10r1]) ∧
    (∀ r' ∈ [c10r1], r'.key = c10r1.key →
      r'.inferred_title = c10r1.inferred_title ∧
      r'.inferred_author = c10r1.inferred_author ∧ r'.content = c10r1.content) :=
  C10_lazy_frame pySetList (PyVal.dict []) [c10r1] [] [c10r1] rfl rfl
    (by decide) (by decide) c10r1 (List.mem_singleton.mpr rfl)

/-! ## Inclusion-walk lemmas (latex_parser.py, `_recursive_parse`) -/

/-- Unfolding of the walk at positive fuel. -/
theorem recurseParseAux_succ (fs : TexFS) (resolve : String → String → String)
    (fuel : Nat) (cur : String) (st : PState) :
    recurseParseAux fs resolve (fuel + 1) cur st =
      if cur ∈ st.processed ∨ (fs.lookup cur).isNone then st
      else
        match fs.lookup cur with
        | some (some nodes) => goNodesAux fs resolve fuel cur nodes (stAdd st cur)
        | _ => stAdd st cur := rfl

/-- The node loop over `[]` does nothing. -/
theorem goNodesAux_nil (fs : TexFS) (resolve : String → String → String)
    (fuel : Nat) (cur : String) (st : PState) :
    goNodesAux fs resolve fuel cur [] st = st := rfl

/-- The node loop peels one node at a time. -/
theorem goNodesAux_cons (fs : TexFS) (resolve : String → String → String)
    (fuel : Nat) (cur : String) (n : TexNode) (ns : List TexNode) (st : PState) :
    goNodesAux fs resolve fuel cur (n :: ns) st =
      goNodesAux fs resolve fuel cur ns (texNodeStep fs resolve fuel cur st n) := rfl

/-- `insertSet` on a fresh element appends it. -/
theorem insertSet_of_not_mem (l : List String) (x : String) (h : ¬ x ∈ l) :
    insertSet l x = l ++ [x] := by
  unfold insertSet
  rw [if_neg h]

/-- Membership in an `insertSet` result. -/
theorem mem_insertSet (l : List String) (x y : String) :
    y ∈ insertSet l x ↔ y ∈ l ∨ y = x := by
  unfold insertSet
  by_cases h : x ∈ l
  · rw [if_pos h]
    constructor
    · exact Or.inl
    · rintro (hy | hy)
      · exact hy
      · exact hy ▸ h
  · rw [if_neg h]
    simp

/-- A successful lookup means the key is a project file. -/
theorem lookup_isSome_mem_keys (fs : TexFS) (cur : String)
    (h : (fs.lookup cur).isSome) : cur ∈ fs.map Prod.fst := by
  induction fs with
  | nil => simp [List.lookup] at h
  | cons kv fs ih =>
    cases kv with
    | mk k v =>
      rw [List.lookup] at h
      cases hbe : cur == k with
      | true =>
        have : cur = k := by simpa using hbe
        simp [this]
      | false =>
        rw [hbe] at h
        simp only [List.map_cons]
        exact List.mem_cons_of_mem _ (ih h)

/-- `WalkInv` is reflexive. -/
theorem walkInv_refl (fs : TexFS) (st : PState) : WalkInv fs st st :=
  ⟨fun _ h => h, fun _ h => Or.inl h, id, id⟩

/-- `WalkInv` is transitive. -/
theorem walkInv_trans (fs : TexFS) {a b c : PState}
    (h1 : WalkInv fs a b) (h2 : WalkInv fs b c) : WalkInv fs a c := by
  refine ⟨fun p hp => h2.1 p (h1.1 p hp), fun p hp => ?_,
          fun hn => h2.2.2.1 (h1.2.2.1 hn), fun hs => h2.2.2.2 (h1.2.2.2 hs)⟩
  rcases h2.2.1 p hp with h' | h'
  · exact h1.2.1 p h'
  · exact Or.inr h'

/-- Marking a fresh project file preserves the walk invariant. -/
theorem stAdd_inv (fs : TexFS) (st : PState) (cur : String)
    (hmem : ¬ cur ∈ st.processed) (hkey : cur ∈ fs.map Prod.fst) :
    WalkInv fs st (stAdd st cur) := by
  refine ⟨?_, ?_, ?_, ?_⟩
  · intro p hp
    exact (mem_insertSet _ _ _).mpr (Or.inl hp)
  · intro p hp
    rcases (mem_insertSet _ _ _).mp hp with h' | h'
    · exact Or.inl h'
    · exact Or.inr (h' ▸ hkey)
  · intro hn
    rw [show (stAdd st cur).processed = insertSet st.processed cur from rfl,
       insertSet_of_not_mem _ _ hmem]
    simp [List.nodup_append, hn, hmem]
  · intro hs
    show insertSet st.all_tex_files cur = insertSet st.processed cur
    rw [hs]

/-- If every walk call at this fuel satisfies the invariant, so does every
node-loop call. -/
theorem goNodes_inv_of (fs : TexFS) (resolve : String → String → String) (fuel : Nat)
    (h : ∀ cur st, WalkInv fs st (recurseParseAux fs resolve fuel cur st)) :
    ∀ cur ns st, WalkInv fs st (goNodesAux fs resolve fuel cur ns st) := by
  intro cur ns
  induction ns with
  | nil => intro st; exact walkInv_refl fs st
  | cons n ns ih =>
    intro st
    rw [goNodesAux_cons]
    have h1 : WalkInv fs st (texNodeStep fs resolve fuel cur st n) := by
      cases n with
      | other => exact walkInv_refl fs st
      | macroInv name args =>
        cases args with
        | nil => exact walkInv_refl fs st
        | cons arg rest =>
          simp only [texNodeStep]
          by_cases hin : pyRstripChars name ['*'] = "input" ∨
              pyRstripChars name ['*'] = "include"
          · rw [if_pos hin]
            exact h _ st
          · rw [if_neg hin]
            by_cases hb : pyRstripChars name ['*'] = "bibliography"
            · rw [if_pos hb]
              exact ⟨fun _ hp => hp, fun _ hp => Or.inl hp, id, id⟩
            · rw [if_neg hb]
              exact walkInv_refl fs st
    exact walkInv_trans fs h1 (ih (texNodeStep fs resolve fuel cur st n))

/-- The walk only grows `processed` with project files, keeps it
duplicate-free, and keeps `all_tex_files` in sync. -/
theorem recurse_inv (fs : TexFS) (resolve : String → String → String) :
    ∀ fuel cur st, WalkInv fs st (recurseParseAux fs resolve fuel cur st) := by
  intro fuel
  induction fuel with
  | zero => intro cur st; exact walkInv_refl fs st
  | succ f ih =>
    intro cur st
    rw [recurseParseAux_succ]
    by_cases hbase : cur ∈ st.processed ∨ (fs.lookup cur).isNone
    · rw [if_pos hbase]
      exact walkInv_refl fs st
    · rw [if_neg hbase]
      push_neg at hbase
      have hsome : (fs.lookup cur).isSome := by
        cases hl : fs.lookup cur
        · rw [hl] at hbase
          simp at hbase
        · rfl
      have hkey : cur ∈ fs.map Prod.fst := lookup_isSome_mem_keys fs cur hsome
      have h1 := stAdd_inv fs st cur hbase.1 hkey
      cases hl : fs.lookup cur with
      | none =>
        rw [hl] at hsome
        simp at hsome
      | some pr =>
        cases pr with
        | none => exact h1
        | some nodes =>
          exact walkInv_trans fs h1 (goNodes_inv_of fs resolve f ih cur nodes (stAdd st cur))

/-- The node-loop invariant at one fuel level. -/
theorem goNodes_inv (fs : TexFS) (resolve : String → String → String) (fuel : Nat) :
    ∀ cur ns st, WalkInv fs st (goNodesAux fs resolve fuel cur ns st) :=
  goNodes_inv_of fs resolve fuel (recurse_inv fs resolve fuel)

/-- With at least one unit of fuel, walking an existing file marks it
processed. -/
theorem recurse_visits (fs : TexFS) (resolve : String → String → String)
    (fuel : Nat) (cur : String) (st : PState) (hf : 1 ≤ fuel)
    (hsome : (fs.lookup cur).isSome) :
    cur ∈ (recurseParseAux fs resolve fuel cur st).processed := by
  cases fuel with
  | zero => omega
  | succ f =>
    rw [recurseParseAux_succ]
    by_cases hbase : cur ∈ st.processed ∨ (fs.lookup cur).isNone
    · rw [if_pos hbase]
      rcases hbase with h' | h'
      · exact h'
      · rw [Option.isNone_iff_eq_none] at h'
        rw [h'] at hsome
        simp at hsome
    · rw [if_neg hbase]
      have hcur : cur ∈ (stAdd st cur).processed :=
        (mem_insertSet _ _ _).mpr (Or.inr rfl)
      cases hl : fs.lookup cur with
      | none =>
        rw [hl] at hsome
        simp at hsome
      | some pr =>
        cases pr with
        | none => exact hcur
        | some nodes =>
          exact (goNodes_inv fs resolve f cur nodes (stAdd st cur)).1 cur hcur

/-- If a node list contains an `\input`/`\include` of an existing file,
the node loop (with at least one unit of fuel) marks that file
processed. -/
theorem goNodes_visits (fs : TexFS) (resolve : String → String → String)
    (fuel : Nat) (cur : String) (ns : List TexNode) :
    ∀ st target, 1 ≤ fuel → (fs.lookup target).isSome →
      IncludesTo resolve cur ns target →
      target ∈ (goNodesAux fs resolve fuel cur ns st).processed := by
  induction ns with
  | nil =>
    intro st target _ _ hinc
    rcases hinc with ⟨_, _, _, hmem, _⟩
    simp at hmem
  | cons n ns ih =>
    intro st target hf hsome hinc
    rcases hinc with ⟨name, arg, rest, hmem, hname, hres⟩
    rw [goNodesAux_cons]
    rcases List.mem_cons.mp hmem with hhead | htail
    · have hstep : texNodeStep fs resolve fuel cur st n =
          recurseParseAux fs resolve fuel (resolveTarget resolve cur arg) st := by
        rw [← hhead]
        simp only [texNodeStep]
        rw [if_pos hname]
      rw [hstep, hres]
      exact (goNodes_inv fs resolve fuel cur ns _).1 target
        (recurse_visits fs resolve fuel target st hf hsome)
    · exact ih (texNodeStep fs resolve fuel cur st n) target hf hsome
        ⟨name, arg, rest, htail, hname, hres⟩

/-- Growing the processed list cannot increase the number of unprocessed
keys. -/
theorem unprocCount_mono (keys : List String) :
    ∀ p1 p2 : List String, (∀ x ∈ p1, x ∈ p2) →
      unprocCount keys p2 ≤ unprocCount keys p1 := by
  induction keys with
  | nil => intro p1 p2 _; simp [unprocCount]
  | cons k ks ih =>
    intro p1 p2 hsub
    unfold unprocCount
    rw [List.filter_cons, List.filter_cons]
    by_cases h2 : k ∈ p2
    · rw [if_neg (by simp [h2])]
      by_cases h1 : k ∈ p1
      · rw [if_neg (by simp [h1])]
        exact ih p1 p2 hsub
      · rw [if_pos (by simp [h1])]
        have := ih p1 p2 hsub
        unfold unprocCount at this
        simpa using Nat.le_succ_of_le this
    · have h1 : ¬ k ∈ p1 := fun hk => h2 (hsub k hk)
      rw [if_pos (by simp [h2]), if_pos (by simp [h1])]
      have := ih p1 p2 hsub
      unfold unprocCount at this
      simpa using this

/-- Processing a fresh project file strictly decreases the number of
unprocessed keys. -/
theorem unprocCount_lt (keys : List String) (cur : String) :
    ∀ proc : List String, cur ∈ keys → ¬ cur ∈ proc →
      unprocCount keys (insertSet proc cur) < unprocCount keys proc := by
  induction keys with
  | nil => intro proc hk; simp at hk
  | cons k ks ih =>
    intro proc hk hp
    unfold unprocCount
    rw [List.filter_cons, List.filter_cons]
    by_cases hkc : k = cur
    · subst hkc
      rw [if_neg (by simp [mem_insertSet]), if_pos (by simp [hp])]
      have hmono := unprocCount_mono ks proc (insertSet proc k)
        (fun x hx => (mem_insertSet _ _ _).mpr (Or.inl hx))
      unfold unprocCount at hmono
      simpa using Nat.lt_succ_of_le hmono
    · have hk' : cur ∈ ks := by
        rcases List.mem_cons.mp hk with h' | h'
        · exact absurd h'.symm hkc
        · exact h'
      have hmemiff : k ∈ insertSet proc cur ↔ k ∈ proc := by
        rw [mem_insertSet]
        constructor
        · rintro (h' | h')
          · exact h'
          · exact absurd h' hkc
        · exact Or.inl
      by_cases hkp : k ∈ proc
      · rw [if_neg (by simp [hmemiff.mpr hkp]), if_neg (by simp [hkp])]
        exact ih proc hk' hp
      · have hnotins : ¬ k ∈ insertSet proc cur := fun h' => hkp (hmemiff.mp h')
        rw [if_pos (by simp [hnotins]), if_pos (by simp [hkp])]
        have := ih proc hk' hp
        unfold unprocCount at this
        simpa using Nat.succ_lt_succ this

/-- One more unit of fuel changes nothing once the fuel exceeds the number
of unprocessed project files (the walk terminates). -/
theorem walk_stable (fs : TexFS) (resolve : String → String → String) :
    ∀ fuel : Nat,
      (∀ cur st, unproc fs st < fuel →
        recurseParseAux fs resolve fuel cur st =
          recurseParseAux fs resolve (fuel + 1) cur st) ∧
      (∀ cur ns st, unproc fs st < fuel →
        goNodesAux fs resolve fuel cur ns st =
          goNodesAux fs resolve (fuel + 1) cur ns st) := by
  intro fuel
  induction fuel with
  | zero =>
    constructor
    · intro cur st h
      exact absurd h (Nat.not_lt_zero _)
    · intro cur ns st h
      exact absurd h (Nat.not_lt_zero _)
  | succ f ih =>
    have hS : ∀ cur st, unproc fs st < f + 1 →
        recurseParseAux fs resolve (f + 1) cur st =
          recurseParseAux fs resolve (f + 2) cur st := by
      intro cur st h
      rw [recurseParseAux_succ, recurseParseAux_succ]
      by_cases hbase : cur ∈ st.processed ∨ (fs.lookup cur).isNone
      · rw [if_pos hbase, if_pos hbase]
      · rw [if_neg hbase, if_neg hbase]
        push_neg at hbase
        have hsome : (fs.lookup cur).isSome := by
          cases hl : fs.lookup cur
          · rw [hl] at hbase
            simp at hbase
          · rfl
        cases hl : fs.lookup cur with
        | none => simp [hl] at hsome
        | some pr =>
          cases pr with
          | none => rfl
          | some nodes =>
            apply ih.2
            have hlt := unprocCount_lt (fs.map Prod.fst) cur st.processed
              (lookup_isSome_mem_keys fs cur hsome) hbase.1
            unfold unproc at h ⊢
            have : (stAdd st cur).processed = insertSet st.processed cur := rfl
            rw [this]
            omega
    refine ⟨hS, ?_⟩
    intro cur ns
    induction ns with
    | nil =>
      intro st _
      rfl
    | cons n ns ihns =>
      intro st h
      rw [goNodesAux_cons, goNodesAux_cons]
      have hstep : texNodeStep fs resolve (f + 1) cur st n =
          texNodeStep fs resolve (f + 2) cur st n := by
        cases n with
        | other => rfl
        | macroInv name args =>
          cases args with
          | nil => rfl
          | cons arg rest =>
            simp only [texNodeStep]
            by_cases hin : pyRstripChars name ['*'] = "input" ∨
                pyRstripChars name ['*'] = "include"
            · rw [if_pos hin, if_pos hin]
              exact hS _ st h
            · rw [if_neg hin, if_neg hin]
      rw [← hstep]
      apply ihns
      have hinv : WalkInv fs st (texNodeStep fs resolve (f + 1) cur st n) := by
        have := goNodes_inv fs resolve (f + 1) cur [n] st
        rw [goNodesAux_cons, goNodesAux_nil] at this
        exact this
      have hmono := unprocCount_mono (fs.map Prod.fst) st.processed
        (texNodeStep fs resolve (f + 1) cur st n).processed hinv.1
      unfold unproc at h ⊢
      omega

/-- Above the stabilization threshold, any amount of fuel computes the
same walk result. -/
theorem recurse_stable_ge (fs : TexFS) (resolve : String → String → String)
    (cur : String) (st : PState) (f1 : Nat) (h : unproc fs st < f1) :
    ∀ f2, f1 ≤ f2 →
      recurseParseAux fs resolve f2 cur st = recurseParseAux fs resolve f1 cur st := by
  intro f2
  induction f2 with
  | zero =>
    intro h2
    rw [Nat.le_zero.mp h2]
  | succ g ihg =>
    intro h2
    by_cases he : f1 = g + 1
    · rw [he]
    · have hle : f1 ≤ g := by omega
      rw [← (walk_stable fs resolve g).1 cur st (by omega)]
      exact ihg hle

/-! ## C5 -/

/-- C5: for a cyclic two-file project (file `a` includes file `b` and file
`b` includes file `a`), the recursive inclusion walk terminates (its result
is the same for all fuel beyond the threshold, i.e. however deep the
recursion is allowed to go), no file is parsed twice (`all_tex_files` is
duplicate-free and identical to the processed set), and `all_tex_files`
holds exactly the two distinct files. -/
theorem C5_cyclic_walk (a b : String) (na nb : List TexNode)
    (resolve : String → String → String) (hab : ¬ a = b)
    (hA : IncludesTo resolve a na b) (_hB : IncludesTo resolve b nb a) :
    (runRecursiveParse [(a, some na), (b, some nb)] resolve a).all_tex_files.Nodup ∧
    (∀ p, p ∈ (runRecursiveParse [(a, some na), (b, some nb)] resolve a).all_tex_files ↔
      p = a ∨ p = b) ∧
    (runRecursiveParse [(a, some na), (b, some nb)] resolve a).all_tex_files.length = 2 ∧
    (runRecursiveParse [(a, some na), (b, some nb)] resolve a).processed =
      (runRecursiveParse [(a, some na), (b, some nb)] resolve a).all_tex_files ∧
    (∀ fuel, 3 ≤ fuel →
      recurseParseAux [(a, some na), (b, some nb)] resolve fuel a initPState =
        runRecursiveParse [(a, some na), (b, some nb)] resolve a) := by
  have hba : (b == a) = false := by
    simp only [beq_eq_false_iff_ne, ne_eq]
    exact fun h => hab h.symm
  have hla : ([(a, some na), (b, some nb)] : TexFS).lookup a = some (some na) := by
    simp [List.lookup]
  have hlb : ([(a, some na), (b, some nb)] : TexFS).lookup b = some (some nb) := by
    simp [List.lookup, hba]
  have hrun : runRecursiveParse [(a, some na), (b, some nb)] resolve a =
      recurseParseAux [(a, some na), (b, some nb)] resolve 3 a initPState := rfl
  have hinv := recurse_inv [(a, some na), (b, some nb)] resolve 3 a initPState
  have hsync : (recurseParseAux [(a, some na), (b, some nb)] resolve 3 a
      initPState).all_tex_files =
      (recurseParseAux [(a, some na), (b, some nb)] resolve 3 a initPState).processed :=
    hinv.2.2.2 rfl
  have hnodup : (recurseParseAux [(a, some na), (b, some nb)] resolve 3 a
      initPState).processed.Nodup := hinv.2.2.1 List.nodup_nil
  have ha : a ∈ (recurseParseAux [(a, some na), (b, some nb)] resolve 3 a
      initPState).processed :=
    recurse_visits _ resolve 3 a initPState (by omega) (by rw [hla]; rfl)
  have hstep : recurseParseAux [(a, some na), (b, some nb)] resolve 3 a initPState =
      goNodesAux [(a, some na), (b, some nb)] resolve 2 a na (stAdd initPState a) := by
    rw [show (3 : Nat) = 2 + 1 from rfl, recurseParseAux_succ]
    rw [if_neg (by simp [hla, initPState])]
    rw [hla]
  have hb : b ∈ (recurseParseAux [(a, some na), (b, some nb)] resolve 3 a
      initPState).processed := by
    rw [hstep]
    exact goNodes_visits _ resolve 2 a na (stAdd initPState a) b (by omega)
      (by rw [hlb]; rfl) hA
  have hmem : ∀ p, p ∈ (recurseParseAux [(a, some na), (b, some nb)] resolve 3 a
      initPState).processed ↔ p = a ∨ p = b := by
    intro p
    constructor
    · intro hp
      rcases hinv.2.1 p hp with h' | h'
      · simp [initPState] at h'
      · simpa using h'
    · rintro (h' | h')
      · exact h' ▸ ha
      · exact h' ▸ hb
  refine ⟨?_, ?_, ?_, ?_, ?_⟩
  · rw [hrun, hsync]
    exact hnodup
  · intro p
    rw [hrun, hsync]
    exact hmem p
  · rw [hrun, hsync]
    have hfin : (recurseParseAux [(a, some na), (b, some nb)] resolve 3 a
        initPState).processed.toFinset = ({a, b} : Finset String) := by
      ext p
      simp only [List.mem_toFinset, Finset.mem_insert, Finset.mem_singleton]
      exact hmem p
    rw [← List.toFinset_card_of_nodup hnodup, hfin]
    exact Finset.card_pair hab
  · rw [hrun, hsync]
  · intro fuel hf
    rw [hrun]
    exact recurse_stable_ge _ resolve a initPState 3
      (by unfold unproc unprocCount; simp [initPState]) fuel hf

/-- Witness for C5 at the concrete two-file cycle `A.tex ↔ B.tex`. -/
theorem C5_witness :
    (runRecursiveParse fsW resolveW "A.tex").all_tex_files.length = 2 :=
  (C5_cyclic_walk "A.tex" "B.tex" [.macroInv "input" ["B"]]
    [.macroInv "include" ["A"]] resolveW (by decide)
    ⟨"input", "B", [], by simp, Or.inl rfl, rfl⟩
    ⟨"include", "A", [], by simp, Or.inr rfl, rfl⟩).2.2.1

/-! ## Set-order independence lemmas (claim C4) -/

/-- `exCtxRel` is reflexive. -/
theorem exCtxRel_refl (x : Except PyErr (List CitationContext)) : exCtxRel x x := by
  cases x with
  | ok l => exact fun _ => rfl
  | error e => rfl

/-- `ctxRel` is compatible with concatenation. -/
theorem ctxRel_append {a₁ a₂ b₁ b₂ : List CitationContext}
    (ha : ctxRel a₁ a₂) (hb : ctxRel b₁ b₂) : ctxRel (a₁ ++ b₁) (a₂ ++ b₂) := by
  intro k
  rw [List.filter_append, List.filter_append, ha k, hb k]

/-- The default set model is a valid set-iteration order. -/
theorem validOrd_pySetList : ValidOrd pySetList := by
  have go : ∀ (ks acc : List String), acc.Nodup →
      (ks.foldl insertSet acc).Nodup ∧
      ∀ k, k ∈ ks.foldl insertSet acc ↔ k ∈ acc ∨ k ∈ ks := by
    intro ks
    induction ks with
    | nil =>
      intro acc h
      exact ⟨h, by simp⟩
    | cons x ks ih =>
      intro acc h
      simp only [List.foldl_cons]
      have hacc : (insertSet acc x).Nodup := by
        unfold insertSet
        by_cases hx : x ∈ acc
        · rw [if_pos hx]
          exact h
        · rw [if_neg hx]
          simp [List.nodup_append, h, hx]
      obtain ⟨h1, h2⟩ := ih (insertSet acc x) hacc
      refine ⟨h1, fun k => ?_⟩
      rw [h2 k, mem_insertSet]
      constructor
      · rintro ((hk | hk) | hk)
        · exact Or.inl hk
        · exact Or.inr (by simp [hk])
        · exact Or.inr (by simp [hk])
      · rintro (hk | hk)
        · exact Or.inl (Or.inl hk)
        · rcases List.mem_cons.mp hk with hk' | hk'
          · exact Or.inl (Or.inr hk')
          · exact Or.inr hk'
  intro ks
  obtain ⟨h1, h2⟩ := go ks [] List.nodup_nil
  exact ⟨h1, fun k => by rw [pySetList, h2 k]; simp⟩

/-- Filtering a duplicate-free list for one value yields that value at most
once. -/
theorem nodup_filter_eq (l : List String) (hl : l.Nodup) (k : String) :
    l.filter (fun a => a = k) = if k ∈ l then [k] else [] := by
  induction l with
  | nil => simp
  | cons x l ih =>
    simp only [List.nodup_cons] at hl
    rw [List.filter_cons]
    by_cases hx : x = k
    · subst hx
      rw [if_pos (by simp), if_pos (List.mem_cons_self x l)]
      rw [ih hl.2, if_neg hl.1]
    · rw [if_neg (by simp [hx]), ih hl.2]
      by_cases hk : k ∈ l
      · rw [if_pos hk, if_pos (List.mem_cons_of_mem _ hk)]
      · rw [if_neg hk, if_neg (by
          intro hmem
          rcases List.mem_cons.mp hmem with h' | h'
          · exact hx h'.symm
          · exact hk h')]

/-- The per-sentence batch emitted for a valid set order, filtered to one
key, does not depend on the order: it is the one context of that key when
the key was cited in the sentence, nothing otherwise. -/
theorem ordBatch_filter (ord : List String → List String) (h : ValidOrd ord)
    (ks : List String) (sec sent pre post k : String) :
    ((ord ks).map fun x => mkCtx x sec sent pre post).filter (fun c => c.key = k) =
      if k ∈ ks then [mkCtx k sec sent pre post] else [] := by
  rw [List.filter_map]
  rw [show ((fun c => decide (c.key = k)) ∘ fun x => mkCtx x sec sent pre post) =
      fun a => decide (a = k) from rfl]
  rw [nodup_filter_eq _ (h ks).1 k]
  by_cases hk : k ∈ ks
  · rw [if_pos (((h ks).2 k).mpr hk), if_pos hk]
    rfl
  · rw [if_neg (fun hh => hk (((h ks).2 k).mp hh)), if_neg hk]
    rfl

/-- The sentence loop is insensitive to the set-iteration order, up to
`ctxRel`: all error behavior and, for each key, the emitted contexts are
identical. -/
theorem processSents_rel (ord₁ ord₂ : List String → List String)
    (h₁ : ValidOrd ord₁) (h₂ : ValidOrd ord₂) (sec : String) :
    ∀ (sents : List (List PyVal)) (prev : Option (List PyVal)),
      exCtxRel (processSents ord₁ sec prev sents) (processSents ord₂ sec prev sents) := by
  intro sents
  induction sents with
  | nil =>
    intro prev
    exact exCtxRel_refl _
  | cons s rest ih =>
    intro prev
    simp only [processSents]
    cases hk : collectSentenceKeys s with
    | error e => exact exCtxRel_refl _
    | ok keys =>
      by_cases hke : keys = []
      · simp only [if_pos hke]
        exact ih (some s)
      · simp only [if_neg hke]
        cases hs : _get_plain_text_from_nodes (.list s) with
        | error e => exact exCtxRel_refl _
        | ok sentText =>
          cases hp : (match prev with
                      | some p => _get_plain_text_from_nodes (.list p)
                      | Option.none => .ok "") with
          | error e => exact exCtxRel_refl _
          | ok preText =>
            cases hq : (match rest with
                        | nxt :: _ => _get_plain_text_from_nodes (.list nxt)
                        | [] => .ok "") with
            | error e => exact exCtxRel_refl _
            | ok postText =>
              have hihr := ih (some s)
              cases ht1 : processSents ord₁ sec (some s) rest with
              | error e₁ =>
                cases ht2 : processSents ord₂ sec (some s) rest with
                | error e₂ =>
                  rw [ht1, ht2] at hihr
                  simp only [exCtxRel] at hihr ⊢
                  exact hihr
                | ok t₂ =>
                  rw [ht1, ht2] at hihr
                  simp only [exCtxRel] at hihr
              | ok t₁ =>
                cases ht2 : processSents ord₂ sec (some s) rest with
                | error e₂ =>
                  rw [ht1, ht2] at hihr
                  simp only [exCtxRel] at hihr
                | ok t₂ =>
                  rw [ht1, ht2] at hihr
                  simp only [exCtxRel] at hihr ⊢
                  intro k
                  rw [List.filter_append, List.filter_append,
                     ordBatch_filter ord₁ h₁ keys sec (pyStripStr sentText)
                       (pyStripStr preText) (pyStripStr postText) k,
                     ordBatch_filter ord₂ h₂ keys sec (pyStripStr sentText)
                       (pyStripStr preText) (pyStripStr postText) k,
                     hihr k]

/-- The block walk is insensitive to the set-iteration order, up to
`ctxRel`. -/
theorem analyzeBlocksGo_rel (ord₁ ord₂ : List String → List String)
    (h₁ : ValidOrd ord₁) (h₂ : ValidOrd ord₂) :
    ∀ (blocks : List PyVal) (sec : String),
      exCtxRel (analyzeBlocksGo ord₁ blocks sec) (analyzeBlocksGo ord₂ blocks sec) := by
  intro blocks
  induction blocks with
  | nil =>
    intro sec
    exact exCtxRel_refl _
  | cons block rest ih =>
    intro sec
    cases block with
    | dict fields =>
      simp only [analyzeBlocksGo]
      by_cases hh : tagOf (pyLookup fields "t") = some "Header"
      · simp only [if_pos hh]
        cases hc : pyLookup fields "c" with
        | none => exact exCtxRel_refl _
        | some c =>
          dsimp only
          cases hsec : headerSection c with
          | error e => exact exCtxRel_refl _
          | ok newSec => exact ih newSec
      · simp only [if_neg hh]
        by_cases hpa : tagOf (pyLookup fields "t") = some "Para"
        · simp only [if_pos hpa]
          cases hc : pyLookup fields "c" with
          | none => exact exCtxRel_refl _
          | some c =>
            dsimp only
            cases hit : pyIterate c with
            | error e => exact exCtxRel_refl _
            | ok nodes =>
              dsimp only
              cases hsp : splitSentsAux nodes [] [] with
              | error e => exact exCtxRel_refl _
              | ok sents =>
                dsimp only
                have hps := processSents_rel ord₁ ord₂ h₁ h₂ sec sents Option.none
                cases hp1 : processSents ord₁ sec Option.none sents with
                | error e₁ =>
                  cases hp2 : processSents ord₂ sec Option.none sents with
                  | error e₂ =>
                    rw [hp1, hp2] at hps
                    simp only [exCtxRel] at hps
                    rw [hps]
                    exact exCtxRel_refl _
                  | ok t₂ =>
                    rw [hp1, hp2] at hps
                    simp only [exCtxRel] at hps
                | ok cs₁ =>
                  cases hp2 : processSents ord₂ sec Option.none sents with
                  | error e₂ =>
                    rw [hp1, hp2] at hps
                    simp only [exCtxRel] at hps
                  | ok cs₂ =>
                    rw [hp1, hp2] at hps
                    simp only [exCtxRel] at hps
                    have hrest := ih sec
                    cases hr1 : analyzeBlocksGo ord₁ rest sec with
                    | error e₁ =>
                      cases hr2 : analyzeBlocksGo ord₂ rest sec with
                      | error e₂ =>
                        rw [hr1, hr2] at hrest
                        simp only [exCtxRel] at hrest ⊢
                        exact hrest
                      | ok m₂ =>
                        rw [hr1, hr2] at hrest
                        simp only [exCtxRel] at hrest
                    | ok m₁ =>
                      cases hr2 : analyzeBlocksGo ord₂ rest sec with
                      | error e₂ =>
                        rw [hr1, hr2] at hrest
                        simp only [exCtxRel] at hrest
                      | ok m₂ =>
                        rw [hr1, hr2] at hrest
                        simp only [exCtxRel] at hrest ⊢
                        exact ctxRel_append hps hrest
        · simp only [if_neg hpa]
          exact ih sec
    | str s =>
      simp only [analyzeBlocksGo]
      exact exCtxRel_refl _
    | int n =>
      simp only [analyzeBlocksGo]
      exact exCtxRel_refl _
    | list l =>
      simp only [analyzeBlocksGo]
      exact exCtxRel_refl _
    | null =>
      simp only [analyzeBlocksGo]
      exact exCtxRel_refl _

/-- The whole context analysis is insensitive to the set-iteration order,
up to `ctxRel`. -/
theorem analyze_rel (ord₁ ord₂ : List String → List String)
    (h₁ : ValidOrd ord₁) (h₂ : ValidOrd ord₂) (data : PyVal) :
    exCtxRel (_analyze_contexts_from_ast ord₁ data)
      (_analyze_contexts_from_ast ord₂ data) := by
  simp only [_analyze_contexts_from_ast]
  cases hd : pyDotGetD data "blocks" (.list []) with
  | error e => exact exCtxRel_refl _
  | ok blocks =>
    dsimp only
    cases hit : pyIterate blocks with
    | error e => exact exCtxRel_refl _
    | ok bl =>
      dsimp only
      exact analyzeBlocksGo_rel ord₁ ord₂ h₁ h₂ bl "引言"

/-! ## C4 -/

/-- C4: citation-context extraction is deterministic. The per-sentence
deduplication iterates `set(sentence_keys)`, modelled by an arbitrary
order function; for any two valid set-iteration orders, `extract_all_data`
returns identical outputs (identical `citations` lists on every record in
particular), so two runs on identical inputs agree regardless of how the
set happens to be iterated. -/
theorem C4_extraction_deterministic (data : PyVal) (refs : List RefRecord)
    (ord₁ ord₂ : List String → List String)
    (h₁ : ValidOrd ord₁) (h₂ : ValidOrd ord₂) :
    extract_all_data ord₁ data refs = extract_all_data ord₂ data refs := by
  have h := analyze_rel ord₁ ord₂ h₁ h₂ data
  unfold extract_all_data
  cases ha1 : _analyze_contexts_from_ast ord₁ data with
  | error e₁ =>
    cases ha2 : _analyze_contexts_from_ast ord₂ data with
    | error e₂ =>
      rw [ha1, ha2] at h
      simp only [exCtxRel] at h
      rw [h]
    | ok l₂ =>
      rw [ha1, ha2] at h
      simp only [exCtxRel] at h
  | ok l₁ =>
    cases ha2 : _analyze_contexts_from_ast ord₂ data with
    | error e₂ =>
      rw [ha1, ha2] at h
      simp only [exCtxRel] at h
    | ok l₂ =>
      rw [ha1, ha2] at h
      simp only [exCtxRel] at h
      dsimp only
      congr 1
      rw [mergeCitations_factor, mergeCitations_factor, List.map_map, List.map_map]
      apply List.map_congr_left
      intro kr _
      simp only [Function.comp_apply]
      congr 1
      rw [h kr.1]

/-- Witness for C4: the default set model is a valid order; applying the
theorem at it (twice) on a concrete document and record list. -/
theorem C4_witness :
    extract_all_data pySetList c1Doc [c1Ref] = extract_all_data pySetList c1Doc [c1Ref] :=
  C4_extraction_deterministic c1Doc [c1Ref] pySetList pySetList
    validOrd_pySetList validOrd_pySetList
